import Mathlib

set_option linter.unreachableTactic false
set_option linter.unusedTactic false

/-!
# Verification of the Orca Web Clipper extraction/conversion engine

Shallow embedding of the content-extraction and HTML→Markdown conversion core
(`contentScript.ts` and the markdown converter module) together with proofs of
the specification claims.

Conventions of the embedding:
* DOM trees are values of an inductive `DomNode`; `document`/`innerHTML`
  parsing is outside the model, so entry points take an already-parsed tree.
* JavaScript strings are modelled by Lean `String`/`List Char`; whitespace is
  the common JS whitespace set `isJsWs`.
* `Math.sqrt` (transcendental) and `new URL(u, base)` (WHATWG URL resolution)
  are taken as parameters; every theorem holds for all choices of these
  parameters, which the relevant claims never depend on.
* Numbers are embedded as `ℚ` (all constants of the source are decimal and the
  claims under verification never hinge on binary rounding).
-/

namespace OrcaClipper

/-! ## JavaScript string primitives -/

/-- The JS whitespace characters relevant here (`\s` / `String.prototype.trim`):
space, tab, LF, CR, vertical tab, form feed, NBSP. -/
def isJsWs (c : Char) : Bool :=
  c = ' ' || c = '\t' || c = '\n' || c = '\r' || c = '\x0b' || c = '\x0c' || c = ' '

/-- `String.prototype.trimEnd` on a character list. -/
def jsTrimEndL (l : List Char) : List Char := l.rdropWhile isJsWs

/-- `String.prototype.trimStart` on a character list. -/
def jsTrimStartL (l : List Char) : List Char := l.dropWhile isJsWs

/-- `String.prototype.trim` on a character list. -/
def jsTrimL (l : List Char) : List Char := jsTrimEndL (jsTrimStartL l)

/-- `String.prototype.trim`. -/
def jsTrim (s : String) : String := ⟨jsTrimL s.data⟩

/-- `s.replace(/[\t\n\r]+/g, ' ')` — the converter's text-node collapsing:
every maximal run of tab/LF/CR becomes one space (the space is emitted at the
last character of the run). -/
def collapseTabNl : List Char → List Char
  | [] => []
  | c :: rest =>
    if c = '\t' || c = '\n' || c = '\r' then
      (match rest with
       | [] => [' ']
       | d :: _ =>
         if d = '\t' || d = '\n' || d = '\r' then collapseTabNl rest
         else ' ' :: collapseTabNl rest)
    else c :: collapseTabNl rest

/-- `s.replace(/\s+/g, ' ')` — every maximal whitespace run becomes one
space; used by the text-length measurements of the content script. -/
def collapseWsL : List Char → List Char
  | [] => []
  | c :: rest =>
    if isJsWs c then
      (match rest with
       | [] => [' ']
       | d :: _ => if isJsWs d then collapseWsL rest else ' ' :: collapseWsL rest)
    else c :: collapseWsL rest

/-- `s.replace(/\s+/g, ' ').trim().length` — the content script's notion of
clean text length of a raw string. -/
def collapsedTrimmedLen (s : String) : ℕ := (jsTrimL (collapseWsL s.data)).length

/-- `hay.includes(needle)` on character lists. -/
def containsSub (hay needle : List Char) : Bool := hay.tails.any needle.isPrefixOf

/-- `hay.includes(needle)` on strings. -/
def strContains (hay needle : String) : Bool := containsSub hay.data needle.data

/-- `s.startsWith(p)` on strings. -/
def strStarts (s p : String) : Bool := p.data.isPrefixOf s.data

/-- `s.toLowerCase()` (ASCII model of JS lowercasing). -/
def jsToLower (s : String) : String := ⟨s.data.map Char.toLower⟩

/-! ## The converter's `normalizeOutput` -/

/-- `text.replace(/\r\n/g, '\n')` — left-to-right, non-overlapping. -/
def normEol : List Char → List Char
  | '\r' :: '\n' :: rest => '\n' :: normEol rest
  | c :: rest => c :: normEol rest
  | [] => []

/-- `text.replace(/\n{3,}/g, '\n\n')`: `collapseNl n l` processes `l` with `n`
pending consecutive newlines already read; every maximal run of `k` newlines is
emitted as `min k 2` newlines (runs of 1 or 2 are untouched, longer runs become
exactly 2, which is what the regex replacement does). -/
def collapseNl : ℕ → List Char → List Char
  | n, [] => List.replicate (min n 2) '\n'
  | n, '\n' :: rest => collapseNl (n + 1) rest
  | n, c :: rest => List.replicate (min n 2) '\n' ++ c :: collapseNl 0 rest

/-- Embedding of `normalizeOutput` (markdown converter, final pass): normalize
line endings, right-trim every line, collapse 3+ consecutive newlines to 2,
trim the whole result. -/
def normalizeOutput (text : String) : String :=
  ⟨jsTrimL (collapseNl 0
    (List.intercalate ['\n'] (((normEol text.data).splitOn '\n').map jsTrimEndL)))⟩

/-! ### Property checkers for normalized output -/

/-- No run of three or more consecutive `'\n'` characters:
`nlRunsOK n l` scans `l` with `n` newlines pending and checks every maximal
newline run has length at most 2. -/
def nlRunsOK : ℕ → List Char → Bool
  | n, [] => decide (n ≤ 2)
  | n, '\n' :: rest => nlRunsOK (n + 1) rest
  | n, _ :: rest => decide (n ≤ 2) && nlRunsOK 0 rest

/-- Adjacent-pair check: no whitespace character other than `'\n'` stands
immediately before a `'\n'`. -/
def noWsNl : List Char → Bool
  | a :: b :: rest => !(isJsWs a && !(a = '\n') && b = '\n') && noWsNl (b :: rest)
  | _ => true

/-- The last character, if any, is not whitespace other than `'\n'`. -/
def lastCharOK (l : List Char) : Bool :=
  match l.getLast? with
  | none => true
  | some c => !(isJsWs c && !(c = '\n'))

/-- A line (a `'\n'`-free chunk) does not end in whitespace. -/
def lineEndsClean (l : List Char) : Prop := ∀ h : l ≠ [], ¬ isJsWs (l.getLast h)

/-! ## DOM model

A parsed DOM tree, as handed to the engine by the host environment. -/

/-- A DOM node: an element (lowercase tag name, attributes, ordered children)
or a text node. -/
inductive DomNode where
  | text (s : String)
  | elem (tag : String) (attrs : List (String × String)) (children : List DomNode)

/-- `el.getAttribute(name)` (`none` = attribute absent = JS `null`). -/
def getAttr (n : DomNode) (name : String) : Option String :=
  match n with
  | .text _ => none
  | .elem _ attrs _ => (attrs.find? (fun p => p.1 = name)).map Prod.snd

/-- `el.getAttribute(name) || ''`. -/
def attrD (n : DomNode) (name : String) : String := (getAttr n name).getD ""

/-- The (lowercase) tag name; `""` for text nodes. -/
def tagOf : DomNode → String
  | .text _ => ""
  | .elem t _ _ => t

def isElem : DomNode → Bool
  | .text _ => false
  | .elem _ _ _ => true

/-- `node.childNodes`. -/
def childrenOf : DomNode → List DomNode
  | .text _ => []
  | .elem _ _ cs => cs

/-- `el.children` — element children only. -/
def elemChildren (n : DomNode) : List DomNode := (childrenOf n).filter isElem

mutual

/-- `node.textContent`. -/
def textContent : DomNode → String
  | .text s => s
  | .elem _ _ cs => textContentList cs
termination_by structural n => n

def textContentList : List DomNode → String
  | [] => ""
  | n :: rest => textContent n ++ textContentList rest
termination_by structural l => l

end

mutual

/-- An element node together with its descendant elements (preorder); empty
for a text node. -/
def nodeElems : DomNode → List DomNode
  | .text _ => []
  | .elem t a cs => .elem t a cs :: elemsIn cs
termination_by structural n => n

/-- All element nodes among the given roots and their descendants, in document
(preorder) order. -/
def elemsIn : List DomNode → List DomNode
  | [] => []
  | n :: rest => nodeElems n ++ elemsIn rest
termination_by structural l => l

end

/-- `root.querySelectorAll('*')`: all proper descendant elements, in document
order. -/
def descElems (n : DomNode) : List DomNode := elemsIn (childrenOf n)

/-- Tag-name test used to model tag-list selectors. -/
def byTag (t : String) (n : DomNode) : Bool := tagOf n = t

def byTags (ts : List String) (n : DomNode) : Bool := ts.contains (tagOf n)

/-- `root.querySelectorAll(sel)` for a predicate-shaped selector. -/
def findDesc (p : DomNode → Bool) (n : DomNode) : List DomNode := (descElems n).filter p

/-- `root.querySelector(sel)`. -/
def queryFirst (p : DomNode → Bool) (n : DomNode) : Option DomNode := (findDesc p n).head?

/-! ### Size facts backing the termination arguments of the converter -/

mutual

theorem sizeOf_le_of_mem_nodeElems : ∀ (n : DomNode) (x : DomNode),
    x ∈ nodeElems n → sizeOf x ≤ sizeOf n
  | .text _, x, h => by rw [nodeElems] at h; cases h
  | .elem t a cs, x, h => by
    rw [nodeElems] at h
    rcases List.mem_cons.mp h with h' | h'
    · rw [h']
    · have := sizeOf_lt_of_mem_elemsIn cs x h'
      simp only [DomNode.elem.sizeOf_spec]
      omega
termination_by structural n => n

theorem sizeOf_lt_of_mem_elemsIn : ∀ (ns : List DomNode) (x : DomNode),
    x ∈ elemsIn ns → sizeOf x < sizeOf ns
  | [], x, h => by rw [elemsIn] at h; cases h
  | n :: rest, x, h => by
    rw [elemsIn] at h
    rcases List.mem_append.mp h with h' | h'
    · have := sizeOf_le_of_mem_nodeElems n x h'
      simp only [List.cons.sizeOf_spec]
      omega
    · have := sizeOf_lt_of_mem_elemsIn rest x h'
      simp only [List.cons.sizeOf_spec]
      omega
termination_by structural l => l

end

theorem sizeOf_childrenOf_lt (n : DomNode) : sizeOf (childrenOf n) < sizeOf n := by
  cases n with
  | text s =>
    have h1 : sizeOf (childrenOf (DomNode.text s)) = 1 := by simp [childrenOf]
    have h2 : 0 < sizeOf s := by cases s; simp
    simp only [h1, DomNode.text.sizeOf_spec]
    omega
  | elem t a cs => simp [childrenOf]

theorem sizeOf_lt_of_mem_descElems {x n : DomNode} (h : x ∈ descElems n) :
    sizeOf x < sizeOf n :=
  lt_trans (sizeOf_lt_of_mem_elemsIn _ x h) (sizeOf_childrenOf_lt n)

theorem sizeOf_lt_of_mem_childrenOf {x n : DomNode} (h : x ∈ childrenOf n) :
    sizeOf x < sizeOf n :=
  lt_trans (List.sizeOf_lt_of_mem h) (sizeOf_childrenOf_lt n)

theorem sizeOf_lt_of_mem_elemChildren {x n : DomNode} (h : x ∈ elemChildren n) :
    sizeOf x < sizeOf n :=
  sizeOf_lt_of_mem_childrenOf (List.mem_of_mem_filter h)

theorem sizeOf_lt_of_mem_findDesc {x n : DomNode} {p : DomNode → Bool}
    (h : x ∈ findDesc p n) : sizeOf x < sizeOf n :=
  sizeOf_lt_of_mem_descElems (List.mem_of_mem_filter h)

theorem sizeOf_lt_of_queryFirst {x n : DomNode} {p : DomNode → Bool}
    (h : queryFirst p n = some x) : sizeOf x < sizeOf n :=
  sizeOf_lt_of_mem_findDesc (List.mem_of_mem_head? h)

theorem list_sizeOf_filter_le {α} [SizeOf α] (p : α → Bool) (l : List α) :
    sizeOf (l.filter p) ≤ sizeOf l := by
  induction l with
  | nil => simp
  | cons a t ih =>
    simp only [List.filter_cons]
    split
    · simp only [List.cons.sizeOf_spec]; omega
    · simp only [List.cons.sizeOf_spec]; omega

theorem sizeOf_elemChildren_lt (n : DomNode) : sizeOf (elemChildren n) < sizeOf n :=
  lt_of_le_of_lt (list_sizeOf_filter_le _ _) (sizeOf_childrenOf_lt n)

/-! ## Markdown converter (markdown.ts) -/

/-- Conversion context (`ConversionContext`). -/
structure ConversionContext where
  baseUrl : String
  listDepth : ℕ
  inBlockquote : Bool
  preserveWhitespace : Bool

/-- Stand-in for WHATWG `new URL(url, base).href` resolution of a relative URL
(with the source's catch-and-return-url folded in). Theorems hold for every
resolver. -/
abbrev UrlRes := String → String → String

/-- `resolveUrl(url, baseUrl)`. -/
def resolveUrl (res : UrlRes) (url baseUrl : String) : String :=
  if url = "" then ""
  else if strStarts url "http://" || strStarts url "https://" || strStarts url "//" then
    (if strStarts url "//" then "https:" ++ url else url)
  else if strContains url ":" then url
  else res url baseUrl

def dangerousProtocols : List String :=
  ["javascript:", "vbscript:", "data:text/html", "data:application/"]

/-- `isSafeUrl(url)`. -/
def isSafeUrl (url : String) : Bool :=
  if url = "" then false
  else !(dangerousProtocols.any (fun proto => strStarts (jsToLower (jsTrim url)) proto))

/-- `escapeQuotes`: `text.replace(/"/g, '\\"')`. -/
def escapeQuotes (text : String) : String :=
  ⟨(text.data.map (fun c => if c = '"' then ['\\', '"'] else [c])).flatten⟩

/-- `String.prototype.trimEnd`. -/
def jsTrimEnd (s : String) : String := ⟨jsTrimEndL s.data⟩

/-- JS `\w`. -/
def isWordChar (c : Char) : Bool := c.isAlphanum || c = '_'

/-- Case-insensitive literal-prefix test (ASCII) for the language regex. -/
def ciPrefixOf (pat : List Char) (l : List Char) : Bool :=
  decide ((l.take pat.length).map Char.toLower = pat)

/-- One attempt of `/(?:language-|lang-)(\w+)/i` at the current position,
including the regex engine's backtracking from the failed `language-`
alternative to `lang-`. -/
def langAt (l : List Char) : Option String :=
  if ciPrefixOf "language-".data l then
    let w := (l.drop 9).takeWhile isWordChar
    if w ≠ [] then some ⟨w⟩
    else
      let w2 := (l.drop 5).takeWhile isWordChar
      if w2 ≠ [] then some ⟨w2⟩ else none
  else if ciPrefixOf "lang-".data l then
    let w := (l.drop 5).takeWhile isWordChar
    if w ≠ [] then some ⟨w⟩ else none
  else none

/-- Leftmost match of `/(?:language-|lang-)(\w+)/i`, returning the capture. -/
def langScan : List Char → Option String
  | [] => none
  | c :: rest =>
    match langAt (c :: rest) with
    | some w => some w
    | none => langScan rest

/-- `extractLanguage(el)`. -/
def extractLanguage (el : DomNode) : String :=
  match langScan (attrD el "class").data with
  | some w => w
  | none =>
    if attrD el "data-language" ≠ "" then attrD el "data-language"
    else attrD el "data-lang"

/-- `shouldSkipElement`: the `hidden` attribute or `aria-hidden="true"`.
(The `getComputedStyle` probe of the source resolves no styling for the
detached trees the converter runs on, so it never skips there.) -/
def shouldSkipElement (el : DomNode) : Bool :=
  (getAttr el "hidden").isSome || attrD el "aria-hidden" = "true"

/-- The ordered lazy-load attribute list of the `img` case. -/
def lazySrcAttrs : List String :=
  ["data-src", "data-original", "data-lazy-src", "data-actualsrc", "data-original-src",
   "data-echo", "data-lazyload", "data-source", "data-url", "data-img-src",
   "data-real-src", "srcset"]

/-- The `isPlaceholder` test of the `img` case. -/
def isPlaceholderSrc (src : String) : Bool :=
  src = "" || strContains src "data:image/gif" ||
  strContains src "data:image/png;base64,iVBOR" ||
  strContains src "placeholder" || strContains src "loading" ||
  strContains src "blank" || (decide (src.length < 50) && strStarts src "data:")

/-- `lazySrc.split(',')[0]?.trim().split(' ')[0]` — first srcset URL. -/
def srcsetFirst (s : String) : String :=
  ⟨((jsTrimL ((s.data.splitOn ',').headD [])).splitOn ' ').headD []⟩

/-- The lazy-load fallback loop of the `img` case: first attribute in order
whose value exists and is not a `data:` URI wins (`srcset` contributes its
first URL and is skipped when that is empty). -/
def imgLazyLoop (el : DomNode) : List String → Option String
  | [] => none
  | attr :: rest =>
    match getAttr el attr with
    | some lazySrc =>
      if lazySrc ≠ "" && !(strStarts lazySrc "data:") then
        if attr = "srcset" then
          let part := srcsetFirst lazySrc
          if part ≠ "" then some part else imgLazyLoop el rest
        else some lazySrc
      else imgLazyLoop el rest
    | none => imgLazyLoop el rest

/-- The `src` the `img` case ends up with after the placeholder check and the
lazy-load loop (the loop leaves `src` unchanged when nothing qualifies). -/
def imgChosenSrc (el : DomNode) : String :=
  let src := attrD el "src"
  if isPlaceholderSrc src then (imgLazyLoop el lazySrcAttrs).getD src else src

/-- URL resolution of the `img` case: `resolveUrl` plus the protocol-relative
`https:` upgrade double-check. -/
def imgAbs (res : UrlRes) (baseUrl src : String) : String :=
  let a := resolveUrl res src baseUrl
  if strStarts a "//" then "https:" ++ a else a

/-- The shorter lazy-attribute list of the `figure` case. -/
def figureLazyAttrs : List String :=
  ["data-src", "data-original", "data-lazy-src", "data-actualsrc"]

/-- Leading digits value (decimal); `none` models `NaN`. -/
def digitsVal (l : List Char) : Option ℕ :=
  let ds := l.takeWhile Char.isDigit
  if ds = [] then none
  else some (ds.foldl (fun acc c => acc * 10 + (c.toNat - '0'.toNat)) 0)

/-- `parseInt(s, 10)`: skip leading whitespace, optional sign, leading digits;
`none` models `NaN`. -/
def jsParseInt (s : String) : Option Int :=
  match jsTrimStartL s.data with
  | '-' :: rest => (digitsVal rest).map (fun v => -(v : Int))
  | '+' :: rest => (digitsVal rest).map (fun v => (v : Int))
  | l => (digitsVal l).map (fun v => (v : Int))

/-- Number of extra empty cells pushed for a `colspan` attribute value
(`for (let i = 1; i < colspan; i++)`; `NaN` runs zero iterations). -/
def colspanExtras (s : String) : ℕ :=
  match jsParseInt s with
  | none => 0
  | some v => (v - 1).toNat

/-- `cell.getAttribute('colspan') || '1'`. -/
def cellColspanAttr (cell : DomNode) : String :=
  if attrD cell "colspan" = "" then "1" else attrD cell "colspan"

/-- Cell post-processing: escape `|`, then flatten newlines to spaces. -/
def cellEscape (s : String) : String :=
  ⟨((s.data.map (fun c => if c = '|' then ['\\', '|'] else [c])).flatten).map
    (fun c => if c = '\n' then ' ' else c)⟩

/-- One markdown table line: `| a | b |` plus newline. -/
def mdRowStr (cells : List String) : String :=
  "| " ++ String.intercalate " | " cells ++ " |\n"

/-- `thead ? thead.querySelectorAll('tr') : []` for the first descendant
`thead`. -/
def tableTheadTrs (table : DomNode) : List DomNode :=
  match queryFirst (byTag "thead") table with
  | none => []
  | some thead => findDesc (byTag "tr") thead

/-- `tbody ? tbody.querySelectorAll('tr') : table.querySelectorAll(':scope > tr')`. -/
def tableBodyRows (table : DomNode) : List DomNode :=
  match queryFirst (byTag "tbody") table with
  | some tbody => findDesc (byTag "tr") tbody
  | none => (elemChildren table).filter (byTag "tr")

theorem sizeOf_lt_of_mem_tableTheadTrs {tr table : DomNode}
    (h : tr ∈ tableTheadTrs table) : sizeOf tr < sizeOf table := by
  unfold tableTheadTrs at h
  split at h
  · cases h
  · exact lt_trans (sizeOf_lt_of_mem_findDesc h) (sizeOf_lt_of_queryFirst (by assumption))

theorem sizeOf_lt_of_mem_tableBodyRows {tr table : DomNode}
    (h : tr ∈ tableBodyRows table) : sizeOf tr < sizeOf table := by
  unfold tableBodyRows at h
  split at h
  · exact lt_trans (sizeOf_lt_of_mem_findDesc h) (sizeOf_lt_of_queryFirst (by assumption))
  · exact sizeOf_lt_of_mem_elemChildren (List.mem_of_mem_filter h)

/-- List-item index: `none` models `NaN` (a non-numeric `start` attribute). -/
def idxStr : Option Int → String
  | none => "NaN"
  | some v => toString v

mutual

/-- Embedding of `convertNode`. `parentTag` carries `el.parentElement?.tagName`
(only consulted by the `code` case; at the call sites where the source invokes
`convertNode` on `querySelectorAll` results the converted nodes are `th`/`td`
cells, which never reach the `code` case, so the value passed there is
irrelevant). -/
def convertNode (res : UrlRes) (node : DomNode) (parentTag : Option String)
    (ctx : ConversionContext) : String :=
  match node with
  | .text s => if ctx.preserveWhitespace then s else ⟨collapseTabNl s.data⟩
  | .elem tg attrs cs => convertElement res tg (DomNode.elem tg attrs cs) parentTag ctx
termination_by (sizeOf node, 3)
decreasing_by
  all_goals try simp_wf
  all_goals exact Prod.Lex.right _ (by omega)

/-- The element half of `convertNode` (split out of the source's single
function so the tag dispatch does not interfere with the termination measure):
`tg` is `el.tagName.toLowerCase()` and `el` the element itself. -/
def convertElement (res : UrlRes) (tg : String) (el : DomNode)
    (parentTag : Option String) (ctx : ConversionContext) : String :=
  if shouldSkipElement el then ""
  else
    let children := convertChildren res el ctx
    match tg with
      | "h1" => "\n\n# " ++ jsTrim children ++ "\n\n"
      | "h2" => "\n\n## " ++ jsTrim children ++ "\n\n"
      | "h3" => "\n\n### " ++ jsTrim children ++ "\n\n"
      | "h4" => "\n\n#### " ++ jsTrim children ++ "\n\n"
      | "h5" => "\n\n##### " ++ jsTrim children ++ "\n\n"
      | "h6" => "\n\n###### " ++ jsTrim children ++ "\n\n"
      | "p" =>
        if jsTrim children = "" then "" else "\n\n" ++ jsTrim children ++ "\n\n"
      | "br" => "\n"
      | "hr" => "\n\n---\n\n"
      | "div" | "section" | "article" | "main" | "header" | "footer" | "aside" =>
        if jsTrim children = "" then "" else "\n" ++ jsTrim children ++ "\n"
      | "strong" | "b" =>
        if jsTrim children = "" then "" else "**" ++ jsTrim children ++ "**"
      | "em" | "i" =>
        if jsTrim children = "" then "" else "*" ++ jsTrim children ++ "*"
      | "u" =>
        if jsTrim children = "" then "" else "<u>" ++ jsTrim children ++ "</u>"
      | "s" | "del" | "strike" =>
        if jsTrim children = "" then "" else "~~" ++ jsTrim children ++ "~~"
      | "code" =>
        if parentTag = some "pre" then textContent el
        else
          let text := textContent el
          if text = "" then ""
          else if strContains text "`" then "`` " ++ text ++ " ``"
          else "`" ++ text ++ "`"
      | "mark" =>
        if jsTrim children = "" then "" else "==" ++ jsTrim children ++ "=="
      | "sup" => "<sup>" ++ children ++ "</sup>"
      | "sub" => "<sub>" ++ children ++ "</sub>"
      | "span" => children
      | "a" =>
        let href := attrD el "href"
        let absoluteHref := resolveUrl res href ctx.baseUrl
        if !isSafeUrl absoluteHref then children
        else
          let text := if jsTrim children ≠ "" then jsTrim children else absoluteHref
          let title := attrD el "title"
          if title ≠ "" then
            "[" ++ text ++ "](" ++ absoluteHref ++ " \"" ++ escapeQuotes title ++ "\")"
          else "[" ++ text ++ "](" ++ absoluteHref ++ ")"
      | "img" =>
        let src := imgChosenSrc el
        if src = "" || strStarts src "data:image/gif" || strStarts src "data:image/svg+xml"
        then ""
        else
          let absoluteSrc := imgAbs res ctx.baseUrl src
          if !isSafeUrl absoluteSrc then ""
          else
            let alt := attrD el "alt"
            let title := attrD el "title"
            if title ≠ "" then
              "![" ++ alt ++ "](" ++ absoluteSrc ++ " \"" ++ escapeQuotes title ++ "\")"
            else "![" ++ alt ++ "](" ++ absoluteSrc ++ ")"
      | "figure" =>
        match queryFirst (byTag "img") el with
        | some img =>
          let src0 := attrD img "src"
          let src :=
            if src0 = "" || strContains src0 "data:image" || strContains src0 "placeholder"
            then (imgLazyLoop img figureLazyAttrs).getD src0
            else src0
          if src ≠ "" && !(strStarts src "data:image/gif") then
            let absoluteSrc := imgAbs res ctx.baseUrl src
            let capText :=
              match queryFirst (byTag "figcaption") el with
              | some cap => jsTrim (textContent cap)
              | none => ""
            let alt := if capText ≠ "" then capText else attrD img "alt"
            if isSafeUrl absoluteSrc then "\n\n![" ++ alt ++ "](" ++ absoluteSrc ++ ")\n\n"
            else "\n\n" ++ jsTrim children ++ "\n\n"
          else "\n\n" ++ jsTrim children ++ "\n\n"
        | none => "\n\n" ++ jsTrim children ++ "\n\n"
      | "ul" | "ol" =>
        let start := jsParseInt (if attrD el "start" ≠ "" then attrD el "start" else "1")
        convertList res el (tg == "ol") start ctx
      | "li" => jsTrim children
      | "blockquote" =>
        let content := jsTrim (convertChildren res el { ctx with inBlockquote := true })
        if content = "" then ""
        else
          let quoted := String.intercalate "\n"
            ((content.data.splitOn '\n').map (fun line => "> " ++ (⟨line⟩ : String)))
          "\n\n" ++ quoted ++ "\n\n"
      | "pre" =>
        let codeTarget := (queryFirst (byTag "code") el).getD el
        let lang := extractLanguage codeTarget
        let code := textContent codeTarget
        if jsTrim code = "" then ""
        else "\n\n```" ++ lang ++ "\n" ++ jsTrimEnd code ++ "\n```\n\n"
      | "table" => convertTable res el ctx
      | "thead" | "tbody" | "tfoot" | "tr" | "th" | "td" => children
      | "dl" => convertDefinitionList res el ctx
      | "dt" | "dd" => children
      | "script" | "style" | "noscript" | "template" | "svg" | "canvas" | "video"
      | "audio" | "iframe" | "object" | "embed" => ""
      | _ => children
termination_by (sizeOf el, 2)
decreasing_by
  all_goals try simp_wf
  all_goals
    first
      | exact Prod.Lex.right _ (by omega)
      | exact Prod.Lex.left _ _ (sizeOf_lt_of_mem_childrenOf (by assumption))
      | exact Prod.Lex.left _ _ (sizeOf_elemChildren_lt _)
      | exact Prod.Lex.left _ _ (sizeOf_lt_of_mem_tableTheadTrs (by assumption))
      | exact Prod.Lex.left _ _ (sizeOf_lt_of_mem_tableBodyRows (by assumption))
      | exact Prod.Lex.left _ _ (sizeOf_lt_of_mem_findDesc (by assumption))
      | exact Prod.Lex.left _ _ (by simp only [List.cons.sizeOf_spec]; omega)
      | exact Prod.Lex.left _ _ (by omega)

/-- Embedding of `convertChildren`. -/
def convertChildren (res : UrlRes) (el : DomNode) (ctx : ConversionContext) : String :=
  String.join ((childrenOf el).attach.map
    (fun ⟨c, _⟩ => convertNode res c (some (tagOf el)) ctx))
termination_by (sizeOf el, 1)
decreasing_by
  all_goals try simp_wf
  all_goals
    first
      | exact Prod.Lex.right _ (by omega)
      | exact Prod.Lex.left _ _ (sizeOf_lt_of_mem_childrenOf (by assumption))
      | exact Prod.Lex.left _ _ (sizeOf_elemChildren_lt _)
      | exact Prod.Lex.left _ _ (sizeOf_lt_of_mem_tableTheadTrs (by assumption))
      | exact Prod.Lex.left _ _ (sizeOf_lt_of_mem_tableBodyRows (by assumption))
      | exact Prod.Lex.left _ _ (sizeOf_lt_of_mem_findDesc (by assumption))
      | exact Prod.Lex.left _ _ (by simp only [List.cons.sizeOf_spec]; omega)
      | exact Prod.Lex.left _ _ (by omega)

/-- Embedding of `convertList`. -/
def convertList (res : UrlRes) (el : DomNode) (ordered : Bool) (start : Option Int)
    (ctx : ConversionContext) : String :=
  let indent := String.join (List.replicate ctx.listDepth "  ")
  "\n" ++
    convertListItems res ordered indent { ctx with listDepth := ctx.listDepth + 1 }
      (elemChildren el) start ++ "\n"
termination_by (sizeOf el, 1)
decreasing_by
  all_goals try simp_wf
  all_goals
    first
      | exact Prod.Lex.right _ (by omega)
      | exact Prod.Lex.left _ _ (sizeOf_lt_of_mem_childrenOf (by assumption))
      | exact Prod.Lex.left _ _ (sizeOf_elemChildren_lt _)
      | exact Prod.Lex.left _ _ (sizeOf_lt_of_mem_tableTheadTrs (by assumption))
      | exact Prod.Lex.left _ _ (sizeOf_lt_of_mem_tableBodyRows (by assumption))
      | exact Prod.Lex.left _ _ (sizeOf_lt_of_mem_findDesc (by assumption))
      | exact Prod.Lex.left _ _ (by simp only [List.cons.sizeOf_spec]; omega)
      | exact Prod.Lex.left _ _ (by omega)

/-- The item loop of `convertList` (non-`li` children are skipped without
advancing the counter; `none` as counter models a `NaN` start). -/
def convertListItems (res : UrlRes) (ordered : Bool) (indent : String)
    (ctx' : ConversionContext) : List DomNode → Option Int → String
  | [], _ => ""
  | item :: rest, index =>
    if tagOf item ≠ "li" then convertListItems res ordered indent ctx' rest index
    else
      let pfx := if ordered then idxStr index ++ ". " else "- "
      let content := jsTrim
        (convertNode res item (some (if ordered then "ol" else "ul")) ctx')
      let lines := content.data.splitOn '\n'
      let firstLine : String := ⟨lines.headD []⟩
      let restLines := String.intercalate "\n"
        ((lines.drop 1).map
          (fun line => if line ≠ [] then indent ++ "  " ++ (⟨line⟩ : String) else ""))
      (indent ++ pfx ++ firstLine ++
        (if restLines ≠ "" then "\n" ++ restLines else "") ++ "\n") ++
        convertListItems res ordered indent ctx' rest (index.map (· + 1))
termination_by items _ => (sizeOf items, 0)
decreasing_by
  all_goals try simp_wf
  all_goals
    first
      | exact Prod.Lex.right _ (by omega)
      | exact Prod.Lex.left _ _ (sizeOf_lt_of_mem_childrenOf (by assumption))
      | exact Prod.Lex.left _ _ (sizeOf_elemChildren_lt _)
      | exact Prod.Lex.left _ _ (sizeOf_lt_of_mem_tableTheadTrs (by assumption))
      | exact Prod.Lex.left _ _ (sizeOf_lt_of_mem_tableBodyRows (by assumption))
      | exact Prod.Lex.left _ _ (sizeOf_lt_of_mem_findDesc (by assumption))
      | exact Prod.Lex.left _ _ (by simp only [List.cons.sizeOf_spec]; omega)
      | exact Prod.Lex.left _ _ (by omega)

/-- Embedding of `convertTable`. The two output branches of the source
(`headerRowCount === 0` or not) build the same string, and both are kept. -/
def convertTable (res : UrlRes) (table : DomNode) (ctx : ConversionContext) : String :=
  let theadRows :=
    ((tableTheadTrs table).attach.map
      (fun ⟨tr, _⟩ => extractTableCells res tr ctx)).filter (fun r => r ≠ [])
  let bodyRowsAll := tableBodyRows table
  let bodyCells := bodyRowsAll.attach.map (fun ⟨tr, _⟩ => extractTableCells res tr ctx)
  let headerRowCount : ℕ :=
    if theadRows.length > 0 then theadRows.length
    else
      match bodyRowsAll, bodyCells with
      | tr0 :: _, c0 :: _ =>
        if c0 ≠ [] && decide ((findDesc (byTag "th") tr0).length > 0) then 1 else 0
      | _, _ => 0
  let rows := theadRows ++ bodyCells.filter (fun r => r ≠ [])
  if rows = [] then ""
  else
    let colCount := (rows.map List.length).foldl max 0
    let normalizedRows := rows.map (fun r => r ++ List.replicate (colCount - r.length) "")
    let r0 := normalizedRows.headD []
    let body := String.join ((normalizedRows.drop 1).map mdRowStr)
    if headerRowCount = 0 then
      "\n\n" ++ mdRowStr r0 ++ mdRowStr (r0.map (fun _ => "---")) ++ body ++ "\n"
    else
      "\n\n" ++ mdRowStr r0 ++ mdRowStr (r0.map (fun _ => "---")) ++ body ++ "\n"
termination_by (sizeOf table, 1)
decreasing_by
  all_goals try simp_wf
  all_goals
    first
      | exact Prod.Lex.right _ (by omega)
      | exact Prod.Lex.left _ _ (sizeOf_lt_of_mem_childrenOf (by assumption))
      | exact Prod.Lex.left _ _ (sizeOf_elemChildren_lt _)
      | exact Prod.Lex.left _ _ (sizeOf_lt_of_mem_tableTheadTrs (by assumption))
      | exact Prod.Lex.left _ _ (sizeOf_lt_of_mem_tableBodyRows (by assumption))
      | exact Prod.Lex.left _ _ (sizeOf_lt_of_mem_findDesc (by assumption))
      | exact Prod.Lex.left _ _ (by simp only [List.cons.sizeOf_spec]; omega)
      | exact Prod.Lex.left _ _ (by omega)

/-- Embedding of `extractTableCells` (colspan expansion included). -/
def extractTableCells (res : UrlRes) (tr : DomNode) (ctx : ConversionContext) :
    List String :=
  ((findDesc (byTags ["th", "td"]) tr).attach.map
    (fun ⟨cell, _⟩ =>
      cellEscape (jsTrim (convertNode res cell none ctx)) ::
        List.replicate (colspanExtras (cellColspanAttr cell)) "")).flatten
termination_by (sizeOf tr, 1)
decreasing_by
  all_goals try simp_wf
  all_goals
    first
      | exact Prod.Lex.right _ (by omega)
      | exact Prod.Lex.left _ _ (sizeOf_lt_of_mem_childrenOf (by assumption))
      | exact Prod.Lex.left _ _ (sizeOf_elemChildren_lt _)
      | exact Prod.Lex.left _ _ (sizeOf_lt_of_mem_tableTheadTrs (by assumption))
      | exact Prod.Lex.left _ _ (sizeOf_lt_of_mem_tableBodyRows (by assumption))
      | exact Prod.Lex.left _ _ (sizeOf_lt_of_mem_findDesc (by assumption))
      | exact Prod.Lex.left _ _ (by simp only [List.cons.sizeOf_spec]; omega)
      | exact Prod.Lex.left _ _ (by omega)

/-- Embedding of `convertDefinitionList`. -/
def convertDefinitionList (res : UrlRes) (dl : DomNode) (ctx : ConversionContext) :
    String :=
  "\n\n" ++ convertDLItems res ctx (elemChildren dl) ""
termination_by (sizeOf dl, 1)
decreasing_by
  all_goals try simp_wf
  all_goals
    first
      | exact Prod.Lex.right _ (by omega)
      | exact Prod.Lex.left _ _ (sizeOf_lt_of_mem_childrenOf (by assumption))
      | exact Prod.Lex.left _ _ (sizeOf_elemChildren_lt _)
      | exact Prod.Lex.left _ _ (sizeOf_lt_of_mem_tableTheadTrs (by assumption))
      | exact Prod.Lex.left _ _ (sizeOf_lt_of_mem_tableBodyRows (by assumption))
      | exact Prod.Lex.left _ _ (sizeOf_lt_of_mem_findDesc (by assumption))
      | exact Prod.Lex.left _ _ (by simp only [List.cons.sizeOf_spec]; omega)
      | exact Prod.Lex.left _ _ (by omega)

/-- The child loop of `convertDefinitionList` carrying `currentTerm`. -/
def convertDLItems (res : UrlRes) (ctx : ConversionContext) :
    List DomNode → String → String
  | [], _ => ""
  | child :: rest, currentTerm =>
    let content := jsTrim (convertNode res child (some "dl") ctx)
    if tagOf child = "dt" then convertDLItems res ctx rest content
    else if tagOf child = "dd" then
      ("**" ++ currentTerm ++ "**\n: " ++ content ++ "\n\n") ++
        convertDLItems res ctx rest currentTerm
    else convertDLItems res ctx rest currentTerm
termination_by items _ => (sizeOf items, 0)
decreasing_by
  all_goals try simp_wf
  all_goals
    first
      | exact Prod.Lex.right _ (by omega)
      | exact Prod.Lex.left _ _ (sizeOf_lt_of_mem_childrenOf (by assumption))
      | exact Prod.Lex.left _ _ (sizeOf_elemChildren_lt _)
      | exact Prod.Lex.left _ _ (sizeOf_lt_of_mem_tableTheadTrs (by assumption))
      | exact Prod.Lex.left _ _ (sizeOf_lt_of_mem_tableBodyRows (by assumption))
      | exact Prod.Lex.left _ _ (sizeOf_lt_of_mem_findDesc (by assumption))
      | exact Prod.Lex.left _ _ (by simp only [List.cons.sizeOf_spec]; omega)
      | exact Prod.Lex.left _ _ (by omega)

end

/-- Embedding of `htmlToMarkdown` after the host's `innerHTML` parsing: the
parsed fragment is the child list of the detached `div` `container`. -/
def htmlToMarkdown (res : UrlRes) (container : DomNode) (baseUrl : String) : String :=
  normalizeOutput (convertNode res container none
    { baseUrl := baseUrl, listDepth := 0, inBlockquote := false,
      preserveWhitespace := false })

/-! ## Content script (contentScript.ts) -/

/-- `s.endsWith(p)`. -/
def strEnds (s p : String) : Bool := p.data.isSuffixOf s.data

/-- `className + ' ' + id` — the match string used by the Readability checks. -/
def classIdOf (el : DomNode) : String := attrD el "class" ++ " " ++ attrD el "id"

/-- Case-insensitive alternation-of-literals regex test. -/
def testSubsCI (subs : List String) (s : String) : Bool :=
  subs.any (fun sub => strContains (jsToLower s) sub)

/-- The plain-substring alternatives of `READABILITY_REGEXPS.unlikelyCandidates`. -/
def unlikelySubs : List String :=
  ["-ad-", "ai2html", "banner", "breadcrumbs", "combx", "comment", "community",
   "cover-wrap", "disqus", "extra", "footer", "gdpr", "header", "legends", "menu",
   "related", "remark", "replies", "rss", "shoutbox", "sidebar", "skyscraper",
   "social", "sponsor", "supplemental", "ad-break", "agegate", "pagination",
   "pager", "popup", "yom-remote"]

/-- `READABILITY_REGEXPS.unlikelyCandidates.test(s)`. -/
def testUnlikely (s : String) : Bool := testSubsCI unlikelySubs s

/-- The alternatives of `READABILITY_REGEXPS.okMaybeItsACandidate`. -/
def okMaybeSubs : List String :=
  ["and", "article", "body", "column", "content", "main", "mathjax", "shadow"]

/-- `READABILITY_REGEXPS.okMaybeItsACandidate.test(s)`. -/
def testOkMaybe (s : String) : Bool := testSubsCI okMaybeSubs s

/-- The alternatives of `READABILITY_REGEXPS.positive`. -/
def positiveSubs : List String :=
  ["article", "body", "content", "entry", "hentry", "h-entry", "main", "page",
   "pagination", "post", "text", "blog", "story", "reading"]

/-- `READABILITY_REGEXPS.positive.test(s)`. -/
def testPositive (s : String) : Bool := testSubsCI positiveSubs s

/-- The plain-substring alternatives of `READABILITY_REGEXPS.negative`
(the four position-anchored `hid` alternatives are handled separately). -/
def negativeSubs : List String :=
  ["-ad-", "hidden", "banner", "combx", "comment", "com-", "contact", "footer",
   "gdpr", "masthead", "media", "meta", "outbrain", "promo", "related", "scroll",
   "share", "shoutbox", "sidebar", "skyscraper", "sponsor", "shopping", "tags",
   "tool", "widget"]

/-- `READABILITY_REGEXPS.negative.test(s)` including `^hid$`, `^hid `, ` hid$`
and ` hid `. -/
def testNegative (s : String) : Bool :=
  testSubsCI negativeSubs s || jsToLower s = "hid" || strStarts (jsToLower s) "hid " ||
  strEnds (jsToLower s) " hid" || strContains (jsToLower s) " hid "

/-! ### Selector model and prioritized-selector scan -/

/-- A simple CSS selector, covering the forms in `ARTICLE_SELECTORS`. -/
inductive SSel where
  | tagName (t : String)
  | idSel (i : String)
  | cls (c : String)
  | attrEq (a v : String)
  | attrContains (a v : String)
  | attrPres (a : String)

/-- A selector: simple, or one descendant combinator `anc s`. -/
inductive Sel where
  | simple (s : SSel)
  | descendant (anc : SSel) (s : SSel)

/-- The whitespace-separated class list of an element. -/
def splitClasses (s : String) : List String :=
  ((s.data.splitOnP isJsWs).filter (fun l => l ≠ [])).map (fun l => ⟨l⟩)

def matchesSimple (el : DomNode) : SSel → Bool
  | .tagName t => decide (tagOf el = t)
  | .idSel i => decide (attrD el "id" = i)
  | .cls c => (splitClasses (attrD el "class")).contains c
  | .attrEq a v => decide (getAttr el a = some v)
  | .attrContains a v =>
    match getAttr el a with
    | some x => strContains x v
    | none => false
  | .attrPres a => (getAttr el a).isSome

/-- `ARTICLE_SELECTORS`, transcribed selector by selector in order. -/
def ARTICLE_SELECTORS : List Sel := [
  .simple (.attrEq "itemprop" "articleBody"),
  .simple (.attrEq "itemprop" "blogPost"),
  .descendant (.attrContains "itemtype" "Article") (.attrEq "itemprop" "text"),
  .simple (.attrEq "data-testid" "article-body"),
  .simple (.attrPres "data-article-body"),
  .simple (.attrPres "data-content-body"),
  .simple (.attrPres "data-post-content"),
  .simple (.idSel "js_content"),
  .simple (.cls "rich_media_content"),
  .simple (.cls "Post-RichText"),
  .simple (.cls "RichContent-inner"),
  .simple (.cls "PostIndex-content"),
  .simple (.idSel "artibody"),
  .simple (.idSel "article-body"),
  .simple (.cls "article-content-left"),
  .simple (.cls "art_content"),
  .simple (.cls "art_box"),
  .simple (.cls "TRS_Editor"),
  .simple (.cls "wp_articlecontent"),
  .simple (.cls "con_txt"),
  .simple (.cls "content_txt"),
  .simple (.cls "news_txt"),
  .simple (.idSel "content_txt"),
  .simple (.cls "article-holder"),
  .simple (.cls "article-detail-bd"),
  .simple (.cls "post-content-main"),
  .simple (.cls "article-body"),
  .simple (.cls "article__body"),
  .simple (.cls "article-content"),
  .simple (.cls "article_content"),
  .simple (.cls "article-text"),
  .simple (.cls "article-detail"),
  .simple (.cls "story-body"),
  .simple (.cls "story-body__inner"),
  .simple (.cls "story-content"),
  .simple (.cls "entry-content"),
  .simple (.cls "post-body"),
  .simple (.cls "post-content"),
  .simple (.cls "post_content"),
  .simple (.cls "content-body"),
  .simple (.cls "blog-content"),
  .simple (.cls "blog_content"),
  .simple (.cls "markdown-body"),
  .simple (.cls "blob-wrapper"),
  .simple (.cls "main-content"),
  .simple (.cls "news-content"),
  .simple (.cls "content-article"),
  .simple (.cls "text-content"),
  .simple (.cls "news_content"),
  .simple (.cls "news-article"),
  .simple (.cls "news_article"),
  .simple (.cls "td-post-content"),
  .simple (.cls "jeg_inner_content"),
  .simple (.cls "single-content"),
  .simple (.cls "single-post-content"),
  .simple (.cls "elementor-widget-theme-post-content"),
  .simple (.cls "postArticle-content"),
  .simple (.cls "article-content"),
  .simple (.cls "post-content"),
  .simple (.tagName "article"),
  .simple (.attrEq "role" "article"),
  .simple (.attrEq "role" "main"),
  .simple (.tagName "main")]

mutual

/-- One node's contribution to `elemsWithAnc`: itself (when an element) with
the given ancestor chain, then its descendants with extended chains. -/
def nodeWithAnc (ancs : List DomNode) : DomNode → List (DomNode × List DomNode)
  | .text _ => []
  | .elem t a cs =>
    (DomNode.elem t a cs, ancs) :: elemsWithAnc (DomNode.elem t a cs :: ancs) cs
termination_by structural n => n

/-- All element nodes among the roots and their descendants, in document
order, each paired with its ancestor chain (nearest first, not including the
document root). -/
def elemsWithAnc (ancs : List DomNode) : List DomNode → List (DomNode × List DomNode)
  | [] => []
  | n :: rest => nodeWithAnc ancs n ++ elemsWithAnc ancs rest
termination_by structural l => l

end

/-- Proper descendant elements of the document root with their ancestor
chains below the root. -/
def descWithAnc (root : DomNode) : List (DomNode × List DomNode) :=
  elemsWithAnc [] (childrenOf root)

/-- Whether a pair matches a selector; for the descendant combinator the
ancestor part may match any ancestor, the document root (`body`) included. -/
def selectorMatches (root : DomNode) (sel : Sel) (pair : DomNode × List DomNode) : Bool :=
  match sel with
  | .simple s => matchesSimple pair.1 s
  | .descendant anc s =>
    matchesSimple pair.1 s && (pair.2 ++ [root]).any (fun a => matchesSimple a anc)

/-- `document.querySelectorAll(sel)` in document order, with ancestor chains. -/
def queryPairs (root : DomNode) (sel : Sel) : List (DomNode × List DomNode) :=
  (descWithAnc root).filter (selectorMatches root sel)

/-- One ancestor step of `isInsideUnwantedContainer`. -/
def isUnwantedAncestor (p : DomNode) : Bool :=
  tagOf p = "aside" || tagOf p = "nav" || tagOf p = "footer" || tagOf p = "header" ||
  (testUnlikely (classIdOf p) && !(testOkMaybe (classIdOf p)))

/-- `isInsideUnwantedContainer(el)`: walk the ancestors strictly below
`document.body`. -/
def isInsideUnwantedContainer (ancs : List DomNode) : Bool := ancs.any isUnwantedAncestor

mutual

/-- `textContent` of one node with `script`/`style`/`noscript`/`iframe`
subtrees removed (the clone-and-remove of `getCleanTextLength`). -/
def cleanTextNode : DomNode → String
  | .text s => s
  | .elem t _ cs =>
    if ["script", "style", "noscript", "iframe"].contains t then ""
    else cleanTextList cs
termination_by structural n => n

/-- `cleanTextNode` concatenated over a node list. -/
def cleanTextList : List DomNode → String
  | [] => ""
  | n :: rest => cleanTextNode n ++ cleanTextList rest
termination_by structural l => l

end

/-- `getCleanTextLength(el)`. -/
def getCleanTextLength (el : DomNode) : ℕ :=
  collapsedTrimmedLen
    (match el with
     | .text s => s
     | .elem _ _ cs => cleanTextList cs)

/-- The per-match acceptance test of Phase 1: survive the unlikely/okMaybe
filter, not be inside an unwanted container, and have clean text length
above 200. -/
def acceptElement (pair : DomNode × List DomNode) : Bool :=
  (!(testUnlikely (classIdOf pair.1)) || testOkMaybe (classIdOf pair.1)) &&
  !(isInsideUnwantedContainer pair.2) &&
  decide (getCleanTextLength pair.1 > 200)

/-- The selector loop of `findContentElement`: first accepted match, selector
priority first, document order within a selector. -/
def findContentLoop (root : DomNode) : List Sel → Option DomNode
  | [] => none
  | sel :: rest =>
    match (queryPairs root sel).find? acceptElement with
    | some pair => some pair.1
    | none => findContentLoop root rest

/-- Embedding of `findContentElement` (Phase 1 of the Content Locator). -/
def findContentElement (root : DomNode) : Option DomNode :=
  findContentLoop root ARTICLE_SELECTORS

/-! ### Heuristic scored fallback (Phase 2) -/

/-- `s.replace(/\s+/g, ' ').trim().length` of `el.textContent` — the cleaned
text length the scorer and the suspicious-keyword sweep use. -/
def collapsedTextLen (el : DomNode) : ℕ := collapsedTrimmedLen (textContent el)

/-- The link-density of `calculateContentScore`: total raw anchor text length
over whitespace-collapsed total text length (`1` when the text is empty). -/
def linkDensityOf (el : DomNode) : ℚ :=
  let textLength := collapsedTextLen el
  let linkTextLength := ((findDesc (byTag "a") el).map
    (fun a => (textContent a).length)).sum
  if textLength > 0 then (linkTextLength : ℚ) / textLength else 1

/-- The sentence-terminator class `[.。！？!?]`. -/
def sentenceEnders : List Char := ['.', '。', '！', '？', '!', '?']

/-- Embedding of `calculateContentScore`. `sqrtQ` stands for `Math.sqrt`
(transcendental, hence a parameter: every theorem below holds for all
choices), and `depth`/`siblings` are the `parentElement`-derived data the
source reads from the live tree, passed explicitly here. -/
def calculateContentScore (sqrtQ : ℕ → ℚ) (el : DomNode) (depth : ℕ)
    (siblings : List DomNode) : ℚ :=
  let textLength := collapsedTextLen el
  if textLength < 200 then 0
  else
    let paragraphs := findDesc (byTag "p") el
    let score1 : ℚ := min (sqrtQ textLength * 2) 500
    let score2 := score1 + (paragraphs.length : ℚ) * 10
    let qualityParagraphs := (paragraphs.filter (fun p =>
      let pText := jsTrim (textContent p)
      decide (50 ≤ pText.length) && decide (pText.length ≤ 500))).length
    let score3 := score2 + ((paragraphs.filter (fun p =>
      decide (2 ≤ ((jsTrim (textContent p)).data.filter
        (fun c => sentenceEnders.contains c)).length))).length : ℚ) * 5
    let score4 := score3 + (qualityParagraphs : ℚ) * 15
    let linkDensity := linkDensityOf el
    if linkDensity > 1/2 then 0
    else
      let score5 :=
        if linkDensity > 3/10 then score4 * (3/10)
        else if linkDensity > 1/5 then score4 * (1/2)
        else if linkDensity > 1/10 then score4 * (4/5)
        else score4 * (1 - linkDensity * (1/2))
      let headings := findDesc (byTags ["h1", "h2", "h3", "h4", "h5", "h6"]) el
      let score6 := score5 + min ((headings.length : ℚ) * 15) 60
      let blockquotes := findDesc (byTag "blockquote") el
      let score7 := score6 + (blockquotes.length : ℚ) * 10
      let images := findDesc (fun n => byTag "img" n && (getAttr n "alt").isSome) el
      let score8 := score7 + min ((images.length : ℚ) * 5) 30
      let codeBlocks := findDesc (byTags ["pre", "code"]) el
      let score9 := score8 + min ((codeBlocks.length : ℚ) * 8) 40
      let lists := findDesc (byTags ["ul", "ol"]) el
      let score10 := score9 + min ((lists.length : ℚ) * 5) 25
      let ms := classIdOf el
      let score11 := if testPositive ms then score10 * (13/10) else score10
      let score12 := if testNegative ms then score11 * (1/5) else score11
      let score13 :=
        if testUnlikely ms && !(testOkMaybe ms) then score12 * (1/10) else score12
      let score14 := if depth > 10 then score13 * (7/10) else score13
      let score15 := if depth > 15 then score14 * (1/2) else score14
      if siblings.length > 10 then
        let similar := (siblings.filter (fun s =>
          decide (tagOf s = tagOf el) &&
          decide ((((textContent s).length : ℤ) - (textLength : ℤ)).natAbs * 10
            < textLength * 3))).length
        if similar > 5 then score15 * (3/10) else score15
      else score15

/-- `depth` as computed from the candidate's ancestor chain below `body`
(the source caps the walk at 20). -/
def depthOfPair (pair : DomNode × List DomNode) : ℕ := min pair.2.length 20

/-- `el.parentElement?.children || []` for a candidate pair. -/
def siblingsOfPair (root : DomNode) (pair : DomNode × List DomNode) : List DomNode :=
  elemChildren (pair.2.headD root)

/-- Embedding of `findLargestTextBlock` (Phase 2): scan
`div`/`section`/`article`/`main` candidates, skip unwanted ones, keep the
best strictly-greater score starting from 0. -/
def findLargestTextBlock (sqrtQ : ℕ → ℚ) (root : DomNode) : Option DomNode :=
  let candidates := (descWithAnc root).filter
    (fun pair => byTags ["div", "section", "article", "main"] pair.1)
  (candidates.foldl (fun (best : Option DomNode × ℚ) pair =>
    if isInsideUnwantedContainer pair.2 then best
    else if tagOf pair.1 = "nav" || tagOf pair.1 = "aside" || tagOf pair.1 = "footer"
    then best
    else
      let score := calculateContentScore sqrtQ pair.1 (depthOfPair pair)
        (siblingsOfPair root pair)
      if score > best.2 then (some pair.1, score) else best) (none, 0)).1

/-! ### Cleaner: suspicious-keyword sweep -/

/-- `suspiciousPatterns` of `cleanElement`, in order. -/
def suspiciousPatterns : List String :=
  ["comment", "sidebar", "side-bar", "widget", "footer", "header",
   "nav", "menu", "breadcrumb", "pagination", "pager",
   "recommend", "related", "advertisement", "ad-", "advert", "sponsor", "promo",
   "social", "share", "subscribe", "newsletter", "signup", "cta",
   "popup", "modal", "overlay", "dialog", "toast", "notification",
   "dropdown", "tooltip", "popover",
   "ranking", "hot-", "rank-", "list-news", "feed-", "timeline",
   "trending", "popular", "top-",
   "accordion", "tab-", "tabs-", "carousel", "slider", "gallery",
   "qrcode", "qr-code", "wechat", "weixin", "app-download"]

/-- `className.includes(pattern) || id.includes(pattern)` on the lower-cased
class and id. -/
def sweepKwMatch (el : DomNode) (pat : String) : Bool :=
  strContains (jsToLower (attrD el "class")) pat ||
  strContains (jsToLower (attrD el "id")) pat

/-- `el.querySelector('img, video, picture, figure')` truthiness. -/
def hasMediaDesc (el : DomNode) : Bool :=
  !((findDesc (byTags ["img", "video", "picture", "figure"]) el).isEmpty)

/-- The pattern loop of the suspicious-keyword sweep: on the first matching
keyword, keep when a media descendant exists, remove when the collapsed
trimmed text length is under 500, otherwise keep trying further keywords. -/
def sweepRemoves (el : DomNode) : List String → Bool
  | [] => false
  | pat :: rest =>
    if sweepKwMatch el pat then
      if hasMediaDesc el then false
      else if collapsedTextLen el < 500 then true
      else sweepRemoves el rest
    else sweepRemoves el rest

/-- The sweep pass over a (cloned) tree: element children whose loop decision
is removal are dropped, recursively in document order. (The source iterates a
static `querySelectorAll('*')` list removing in place; since parents precede
descendants in document order, each decision is taken on the element's intact
subtree, which this top-down recursion reproduces.) -/
def suspiciousSweep (n : DomNode) : DomNode :=
  match n with
  | .text s => .text s
  | .elem t a cs =>
    .elem t a
      (((cs.filter (fun c => !(isElem c && sweepRemoves c suspiciousPatterns))).attach.map
        (fun ⟨c, _⟩ => suspiciousSweep c)))
termination_by sizeOf n
decreasing_by
  exact lt_trans (List.sizeOf_lt_of_mem (List.mem_of_mem_filter (by assumption)))
    (by simp)

/-! ### Title Deduplicator -/

/-- Embedding of `isTitleMatch` (`>= longer.length * 0.7` is stated as
`10 * shorter >= 7 * longer`; lengths are integers, so the comparison agrees
with the floating-point one at every input). -/
def isTitleMatch (title1 title2 : String) : Bool :=
  if title1 = title2 then true
  else if jsToLower title1 = jsToLower title2 then true
  else
    let shorter := if title1.length < title2.length then title1 else title2
    let longer := if title1.length < title2.length then title2 else title1
    if decide (shorter.length > 10) && decide (10 * shorter.length ≥ 7 * longer.length)
    then
      strContains longer shorter ||
        strContains shorter ⟨longer.data.take shorter.length⟩
    else false

/-- The C5 claim's match predicate as stated: case-insensitive equality, or
(shorter at least 70% of longer, and a prefix-or-substring of it). -/
def titleMatchClaim (t1 t2 : String) : Bool :=
  decide (jsToLower t1 = jsToLower t2) ||
    (let shorter := if t1.length < t2.length then t1 else t2
     let longer := if t1.length < t2.length then t2 else t1
     decide (10 * shorter.length ≥ 7 * longer.length) &&
       (shorter.data.isPrefixOf longer.data || containsSub longer.data shorter.data))

/-- The amended C5 predicate: as the claim, plus the source's additional
`shorter.length > 10` guard on the containment branch. -/
def titleMatchAmended (t1 t2 : String) : Bool :=
  decide (jsToLower t1 = jsToLower t2) ||
    (let shorter := if t1.length < t2.length then t1 else t2
     let longer := if t1.length < t2.length then t2 else t1
     decide (shorter.length > 10) && decide (10 * shorter.length ≥ 7 * longer.length) &&
       (shorter.data.isPrefixOf longer.data || containsSub longer.data shorter.data))

/-! ### Metadata: published-date formatting -/

/-- The face of a JS `Date`: the local components the formatter reads
(`getMonth()` is 0-based). -/
structure JsDate where
  fullYear : ℕ
  month0 : ℕ
  dayOfMonth : ℕ
  hour : ℕ
  minute : ℕ

/-- `String(x).padStart(2, '0')`. -/
def padStart2 (s : String) : String := ⟨List.replicate (2 - s.data.length) '0' ++ s.data⟩

/-- `formatDateTime(date)`: `YYYY-MM-DD HH:mm`. -/
def formatDateTime (d : JsDate) : String :=
  toString d.fullYear ++ "-" ++ padStart2 (toString (d.month0 + 1)) ++ "-" ++
    padStart2 (toString d.dayOfMonth) ++ " " ++ padStart2 (toString d.hour) ++ ":" ++
    padStart2 (toString d.minute)

/-- `[年\-\/]`. -/
def isYearSep (c : Char) : Bool := c = '年' || c = '-' || c = '/'

/-- `[月\-\/]`. -/
def isMonthSep (c : Char) : Bool := c = '月' || c = '-' || c = '/'

/-- The day part `(\d{1,2})[日]?` (greedy, at least one digit). -/
def ymdDay (l : List Char) : Option String :=
  let ds := (l.takeWhile Char.isDigit).take 2
  if ds ≠ [] then some ⟨ds⟩ else none

/-- The `(\d{1,2})[月\-\/](\d{1,2})[日]?` tail: greedy two-digit month first,
backtracking to one digit. -/
def ymdMonthDay (l : List Char) : Option (String × String) :=
  let try2 : Option (String × String) :=
    match l with
    | a :: b :: c :: rest =>
      if a.isDigit && b.isDigit && isMonthSep c then
        (ymdDay rest).map (fun d => (⟨[a, b]⟩, d))
      else none
    | _ => none
  match try2 with
  | some r => some r
  | none =>
    match l with
    | a :: c :: rest =>
      if a.isDigit && isMonthSep c then (ymdDay rest).map (fun d => (⟨[a]⟩, d))
      else none
    | _ => none

/-- `/(\d{4})[年\-\/](\d{1,2})[月\-\/](\d{1,2})[日]?/` tried at one position. -/
def ymdAt (l : List Char) : Option (String × String × String) :=
  let y := l.take 4
  if decide (y.length = 4) && y.all Char.isDigit then
    match l.drop 4 with
    | c :: rest =>
      if isYearSep c then (ymdMonthDay rest).map (fun md => (⟨y⟩, md.1, md.2))
      else none
    | [] => none
  else none

/-- Leftmost match of the year/month/day pattern (`dateStr.match(...)`). -/
def firstYmd : List Char → Option (String × String × String)
  | [] => none
  | c :: rest =>
    match ymdAt (c :: rest) with
    | some r => some r
    | none => firstYmd rest

/-- Embedding of `formatPublishedDate`. `parseDate` stands for the
environment's generic `new Date(dateStr)` parser (`none` = Invalid Date);
every theorem holds for all parsers. -/
def formatPublishedDate (parseDate : String → Option JsDate) (dateStr : String) :
    Option String :=
  if dateStr = "" then none
  else
    match parseDate dateStr with
    | some d => some (formatDateTime d)
    | none =>
      match firstYmd dateStr.data with
      | some (y, m, d) => some (y ++ "-" ++ padStart2 m ++ "-" ++ padStart2 d)
      | none =>
        let cleaned := jsTrim dateStr
        if cleaned.length < 50 then some cleaned else none

/-- The three-tier date formatter exactly as the C7 claim states it (generic
parse, else year/month/day pattern, else trimmed raw under 50 characters,
else discard) — with no special case for the empty string. -/
def claimFormatPublishedDate (parseDate : String → Option JsDate) (dateStr : String) :
    Option String :=
  match parseDate dateStr with
  | some d => some (formatDateTime d)
  | none =>
    match firstYmd dateStr.data with
    | some (y, m, d) => some (y ++ "-" ++ padStart2 m ++ "-" ++ padStart2 d)
    | none =>
      let cleaned := jsTrim dateStr
      if cleaned.length < 50 then some cleaned else none

/-! ### Spec-side definition for the lazy-image claim -/

/-- The lazy-load resolution as the C3 claim words it: the first attribute of
the fixed order whose value is present, non-empty and not a `data:` URI wins
(`srcset` contributing its first URL, and only if that is non-empty);
otherwise the original `src` is kept. -/
def specLazyResolve (el : DomNode) : String :=
  let src := attrD el "src"
  if isPlaceholderSrc src then
    match (lazySrcAttrs.filter (fun a =>
      match getAttr el a with
      | some v => v ≠ "" && !(strStarts v "data:") && (a ≠ "srcset" || srcsetFirst v ≠ "")
      | none => false)).head? with
    | some a => if a = "srcset" then srcsetFirst (attrD el a) else attrD el a
    | none => src
  else src

/-- The unsafe-URL condition as the C4 claim words it: the trimmed URL starts,
case-insensitively, with one of the four dangerous prefixes. -/
def unsafePrefixHit (url : String) : Bool :=
  dangerousProtocols.any (fun proto => strStarts (jsToLower (jsTrim url)) proto)

/-! ### Concrete fixtures for witnesses and counterexamples -/

/-- A resolver that leaves relative URLs untouched (any resolver works for
the theorems; witnesses fix this one). -/
def noRes : UrlRes := fun u _ => u

def ctx0 : ConversionContext :=
  { baseUrl := "https://example.com/page", listDepth := 0, inBlockquote := false,
    preserveWhitespace := false }

/-- `<img src="placeholder.gif" data-src="https://x/real.jpg" alt="alt">`. -/
def exLazyImg : DomNode :=
  .elem "img"
    [("src", "placeholder.gif"), ("data-src", "https://x/real.jpg"), ("alt", "alt")] []

/-- `<a href="javascript:alert(1)">click</a>`. -/
def exUnsafeA : DomNode := .elem "a" [("href", "javascript:alert(1)")] [.text "click"]

/-- `<img src="javascript:alert(1)">`. -/
def exUnsafeImg : DomNode := .elem "img" [("src", "javascript:alert(1)")] []

/-- A `div` whose text is entirely anchor text (link density 1). -/
def exLinkyDiv : DomNode :=
  .elem "div" [] [.elem "a" [("href", "https://x/")] [.text "abcdef"]]

def exLinkyRoot : DomNode := .elem "body" [] [exLinkyDiv]

/-- Body text longer than the 200-character floor. -/
def longText : String :=
  "Lorem ipsum dolor sit amet, consectetur adipiscing elit, sed do eiusmod tempor incididunt ut labore et dolore magna aliqua. Ut enim ad minim veniam, quis nostrud exercitation ullamco laboris nisi ut aliquip ex ea commodo consequat."

/-- A document with an accepted `<main>` before an accepted
`[itemprop="articleBody"]` element in document order. -/
def exC8Doc : DomNode :=
  .elem "body" []
    [.elem "main" [] [.text longText],
     .elem "div" [("itemprop", "articleBody")] [.text longText]]

/-- First row one `td`, second row two: exercises the separator-width rule. -/
def exC9Tr1 : DomNode := .elem "tr" [] [.elem "td" [] [.text "a"]]

def exC9Tr2 : DomNode :=
  .elem "tr" [] [.elem "td" [] [.text "b"], .elem "td" [] [.text "c"]]

def exC9Table : DomNode := .elem "table" [] [exC9Tr1, exC9Tr2]

/-- Line at index 3 of the output — the separator line of a converted table
(the output starts with two newlines, so lines 0 and 1 are empty and line 2 is
the header row). -/
def secondTableLine (s : String) : String := ⟨(s.data.splitOn '\n').getD 3 []⟩

/-- Number of `---` cells in a separator line. -/
def sepCellCount (line : String) : ℕ :=
  ((line.data.splitOn '|').filter (fun c => jsTrimL c = "---".data)).length

end OrcaClipper

namespace OrcaClipper

/-! ## Lemmas about `normalizeOutput` -/

theorem collapseNl_nil (n : ℕ) : collapseNl n [] = List.replicate (min n 2) '\n' := rfl

theorem collapseNl_cons_nl (n : ℕ) (rest : List Char) :
    collapseNl n ('\n' :: rest) = collapseNl (n + 1) rest := rfl

theorem collapseNl_cons_ne (n : ℕ) {c : Char} (rest : List Char) (hc : c ≠ '\n') :
    collapseNl n (c :: rest) = List.replicate (min n 2) '\n' ++ c :: collapseNl 0 rest := by
  conv_lhs => unfold collapseNl
  split
  · rename_i heq; cases heq
  · rename_i heq; injection heq with h1 h2; exact absurd h1 hc
  · rename_i heq; injection heq with h1 h2; rw [h1, h2]

theorem nlRunsOK_nil (n : ℕ) : nlRunsOK n [] = decide (n ≤ 2) := rfl

theorem nlRunsOK_cons_nl (n : ℕ) (rest : List Char) :
    nlRunsOK n ('\n' :: rest) = nlRunsOK (n + 1) rest := rfl

theorem nlRunsOK_cons_ne (n : ℕ) {c : Char} (rest : List Char) (hc : c ≠ '\n') :
    nlRunsOK n (c :: rest) = (decide (n ≤ 2) && nlRunsOK 0 rest) := by
  conv_lhs => unfold nlRunsOK
  split
  · rename_i heq; cases heq
  · rename_i heq; injection heq with h1 h2; exact absurd h1 hc
  · rename_i heq; injection heq with h1 h2; rw [h2]

theorem nlRunsOK_of_ge (l : List Char) : ∀ n, 3 ≤ n → nlRunsOK n l = false := by
  induction l with
  | nil => intro n hn; rw [nlRunsOK_nil]; simpa using by omega
  | cons c rest ih =>
    intro n hn
    by_cases hc : c = '\n'
    · subst hc; rw [nlRunsOK_cons_nl]; exact ih (n + 1) (by omega)
    · rw [nlRunsOK_cons_ne n rest hc]
      have : decide (n ≤ 2) = false := by simpa using by omega
      rw [this, Bool.false_and]

theorem nlRunsOK_le {n : ℕ} {l : List Char} (h : nlRunsOK n l = true) : n ≤ 2 := by
  by_contra hn
  rw [nlRunsOK_of_ge l n (by omega)] at h
  exact Bool.false_ne_true h

theorem nlRunsOK_replicate (t : List Char) :
    ∀ k m, nlRunsOK m (List.replicate k '\n' ++ t) = nlRunsOK (m + k) t := by
  intro k
  induction k with
  | zero => intro m; simp
  | succ k ih =>
    intro m
    have h : List.replicate (k + 1) '\n' ++ t = '\n' :: (List.replicate k '\n' ++ t) := by
      simp [List.replicate_succ]
    rw [h, nlRunsOK_cons_nl, ih (m + 1)]
    congr 1
    omega

theorem collapseNl_runsOK (l : List Char) : ∀ n, nlRunsOK 0 (collapseNl n l) = true := by
  induction l with
  | nil =>
    intro n
    rw [collapseNl_nil, ← List.append_nil (List.replicate _ _), nlRunsOK_replicate,
      nlRunsOK_nil]
    simp
  | cons c rest ih =>
    intro n
    by_cases hc : c = '\n'
    · subst hc; rw [collapseNl_cons_nl]; exact ih (n + 1)
    · rw [collapseNl_cons_ne n rest hc, nlRunsOK_replicate,
        nlRunsOK_cons_ne _ _ hc, ih 0]
      simp

theorem nlRunsOK_no_triple_aux (v : List Char) :
    ∀ u m, nlRunsOK m (u ++ '\n' :: '\n' :: '\n' :: v) = false := by
  intro u
  induction u with
  | nil =>
    intro m
    rw [List.nil_append, nlRunsOK_cons_nl, nlRunsOK_cons_nl, nlRunsOK_cons_nl]
    exact nlRunsOK_of_ge v _ (by omega)
  | cons a u' ih =>
    intro m
    by_cases ha : a = '\n'
    · subst ha
      rw [List.cons_append, nlRunsOK_cons_nl]
      exact ih (m + 1)
    · rw [List.cons_append, nlRunsOK_cons_ne _ _ ha, ih 0, Bool.and_false]

/-- If the newline-run check passes, there is no triple-newline infix. -/
theorem noTriple_of_runsOK {l : List Char} (h : nlRunsOK 0 l = true) :
    ¬ (['\n', '\n', '\n'] <:+: l) := by
  rintro ⟨u, v, huv⟩
  have := nlRunsOK_no_triple_aux v u 0
  rw [show u ++ ['\n', '\n', '\n'] ++ v = u ++ '\n' :: '\n' :: '\n' :: v by simp] at huv
  rw [huv] at this
  rw [this] at h
  exact Bool.false_ne_true h

end OrcaClipper

namespace OrcaClipper

/-! ## Substring/prefix bridging lemmas -/

theorem containsSub_iff {hay needle : List Char} :
    containsSub hay needle = true ↔ needle <:+: hay := by
  unfold containsSub
  rw [List.any_eq_true]
  constructor
  · rintro ⟨t, ht, hp⟩
    rw [List.mem_tails] at ht
    rw [List.isPrefixOf_iff_prefix] at hp
    exact List.infix_iff_prefix_suffix.mpr ⟨t, hp, ht⟩
  · intro h
    obtain ⟨t, hp, ht⟩ := List.infix_iff_prefix_suffix.mp h
    exact ⟨t, (List.mem_tails _ _).mpr ht, List.isPrefixOf_iff_prefix.mpr hp⟩

theorem strContains_iff {hay needle : String} :
    strContains hay needle = true ↔ needle.data <:+: hay.data := containsSub_iff

theorem infix_eq_of_length {a b : List Char} (h : a <:+: b) (hl : a.length = b.length) :
    a = b :=
  List.Sublist.eq_of_length h.sublist hl

/-! ## C5: the Title Deduplicator match predicate -/

theorem titleMatch_take_iff {shorter longer : String}
    (hle : shorter.length ≤ longer.length) :
    strContains shorter ⟨longer.data.take shorter.length⟩ = true ↔
      shorter.data.isPrefixOf longer.data = true := by
  rw [strContains_iff, List.isPrefixOf_iff_prefix]
  have hL1 : shorter.length = shorter.data.length := rfl
  have hL2 : longer.length = longer.data.length := rfl
  constructor
  · intro h
    have hlen : (longer.data.take shorter.length).length = shorter.data.length := by
      rw [List.length_take]
      omega
    have heq := infix_eq_of_length h hlen
    rw [← heq]
    exact List.take_prefix _ _
  · intro h
    have heq : shorter.data = longer.data.take shorter.data.length :=
      List.prefix_iff_eq_take.mp h
    show longer.data.take shorter.length <:+: shorter.data
    rw [hL1, ← heq]

theorem titleBranch_eq (shorter longer : String) (hle : shorter.length ≤ longer.length) :
    (if decide (shorter.length > 10) && decide (10 * shorter.length ≥ 7 * longer.length)
     then strContains longer shorter ||
       strContains shorter ⟨longer.data.take shorter.length⟩
     else false) =
    (decide (shorter.length > 10) && decide (10 * shorter.length ≥ 7 * longer.length) &&
      (shorter.data.isPrefixOf longer.data || containsSub longer.data shorter.data)) := by
  by_cases hA : shorter.length > 10
  · by_cases hB : 10 * shorter.length ≥ 7 * longer.length
    · rw [if_pos (by rw [decide_eq_true hA, decide_eq_true hB]; rfl),
        decide_eq_true hA, decide_eq_true hB, Bool.true_and, Bool.true_and]
      rcases hpf : shorter.data.isPrefixOf longer.data with _ | _
      · have hct : strContains shorter ⟨longer.data.take shorter.length⟩ = false := by
          rcases hct : strContains shorter ⟨longer.data.take shorter.length⟩ with _ | _
          · rfl
          · exact absurd ((titleMatch_take_iff hle).mp hct) (by simp [hpf])
        rw [hct, Bool.or_false, Bool.false_or]
        rfl
      · have h1 : strContains longer shorter = true :=
          strContains_iff.mpr (List.IsPrefix.isInfix (List.isPrefixOf_iff_prefix.mp hpf))
        rw [h1, Bool.true_or, Bool.true_or]
    · rw [if_neg (by rw [decide_eq_false hB, Bool.and_false]; exact Bool.false_ne_true),
        decide_eq_false hB, Bool.and_false, Bool.false_and]
  · rw [if_neg (by rw [decide_eq_false hA, Bool.false_and]; exact Bool.false_ne_true),
      decide_eq_false hA, Bool.false_and, Bool.false_and]

/-- Claim C5 (amended): `isTitleMatch` holds exactly when the two titles are
equal case-insensitively, OR the shorter one is longer than 10 characters, at
least 70% of the longer's length, and a prefix-or-substring of the longer.
This differs from the claim as frozen only by the source's additional
`shorter.length > 10` guard on the containment branch. -/
theorem isTitleMatch_iff_amended (t1 t2 : String) :
    isTitleMatch t1 t2 = titleMatchAmended t1 t2 := by
  unfold isTitleMatch titleMatchAmended
  by_cases h1 : t1 = t2
  · subst h1
    rw [if_pos rfl, decide_eq_true (rfl : jsToLower t1 = jsToLower t1), Bool.true_or]
  · rw [if_neg h1]
    by_cases h2 : jsToLower t1 = jsToLower t2
    · rw [if_pos h2, decide_eq_true h2, Bool.true_or]
    · rw [if_neg h2, decide_eq_false h2, Bool.false_or]
      by_cases hlt : t1.length < t2.length
      · simp only [if_pos hlt]
        exact titleBranch_eq t1 t2 (le_of_lt hlt)
      · simp only [if_neg hlt]
        exact titleBranch_eq t2 t1 (le_of_not_lt hlt)

theorem isTitleMatch_claim_counterexample :
    isTitleMatch "abcde" "abcdef" = false ∧ titleMatchClaim "abcde" "abcdef" = true := by
  constructor <;> decide

end OrcaClipper

namespace OrcaClipper

/-! ## C6: the suspicious-keyword sweep decision -/

theorem sweepRemoves_eq_aux (el : DomNode) : ∀ pats : List String,
    sweepRemoves el pats =
      (pats.any (sweepKwMatch el) && !hasMediaDesc el &&
        decide (collapsedTextLen el < 500)) := by
  intro pats
  induction pats with
  | nil => simp [sweepRemoves]
  | cons pat rest ih =>
    rw [sweepRemoves, List.any_cons]
    by_cases hkw : sweepKwMatch el pat = true
    · rw [hkw, if_pos rfl, Bool.true_or]
      by_cases hm : hasMediaDesc el = true
      · rw [if_pos hm, hm]
        simp
      · rw [Bool.eq_false_iff.mpr hm] at *
        rw [if_neg (by simp)]
        by_cases hlen : collapsedTextLen el < 500
        · rw [if_pos hlen, decide_eq_true hlen]
          simp
        · rw [if_neg hlen, ih, decide_eq_false hlen]
          simp
    · rw [Bool.eq_false_iff.mpr hkw] at *
      rw [if_neg (by simp), ih, Bool.false_or]

/-- Claim C6: in the suspicious-keyword sweep, the loop decision removes an
element exactly when its lower-cased class or id contains one of the listed
keywords AND it has no descendant `img`/`video`/`picture`/`figure` AND its
whitespace-collapsed trimmed text length is under 500; elements with a media
descendant or with at least 500 characters of text are kept. -/
theorem sweepRemoves_iff (el : DomNode) :
    sweepRemoves el suspiciousPatterns =
      (suspiciousPatterns.any (sweepKwMatch el) && !hasMediaDesc el &&
        decide (collapsedTextLen el < 500)) :=
  sweepRemoves_eq_aux el suspiciousPatterns

/-! ## C7: the published-date formatter -/

/-- Claim C7 (amended): for every generic parser and every **non-empty** date
string, `formatPublishedDate` agrees with the claim's three-tier description
(generic parse, else year/month/day pattern, else the trimmed raw string when
shorter than 50 characters, else discard); it never raises (it is a total
function). The amendment: the source returns `null` outright for the empty
string, which the claim's tiers would instead send to the trimmed-raw tier. -/
theorem formatPublishedDate_amended (parseDate : String → Option JsDate)
    (dateStr : String) (h : dateStr ≠ "") :
    formatPublishedDate parseDate dateStr = claimFormatPublishedDate parseDate dateStr := by
  unfold formatPublishedDate claimFormatPublishedDate
  rw [if_neg h]

theorem formatPublishedDate_amended_witness :
    ("2024年3月7日" : String) ≠ "" ∧
      formatPublishedDate (fun _ => none) "2024年3月7日" =
        claimFormatPublishedDate (fun _ => none) "2024年3月7日" :=
  ⟨by decide, formatPublishedDate_amended (fun _ => none) "2024年3月7日" (by decide)⟩

/-- Claim C7, counterexample to the claim as frozen: on the empty string the
source returns `null` up front (`if (!dateStr) return null`), while the
claim's tier-3 ("return the trimmed raw string when its length is less than
50") would return the empty string. The generic parser is instantiated to
reject everything, which matches `new Date('')` being Invalid Date. -/
theorem formatPublishedDate_claim_counterexample :
    formatPublishedDate (fun _ => none) "" = none ∧
      claimFormatPublishedDate (fun _ => none) "" = some "" := by
  constructor <;> rfl

end OrcaClipper

namespace OrcaClipper

/-! ## Converter unfolding lemmas (the conversion functions are defined by
well-founded recursion, so their equations are surfaced here once) -/

theorem convertNode_text (res : UrlRes) (s : String) (pt : Option String)
    (ctx : ConversionContext) :
    convertNode res (.text s) pt ctx =
      if ctx.preserveWhitespace then s else ⟨collapseTabNl s.data⟩ := by
  rw [convertNode]

theorem convertNode_elem (res : UrlRes) (tg : String) (attrs : List (String × String))
    (cs : List DomNode) (pt : Option String) (ctx : ConversionContext) :
    convertNode res (.elem tg attrs cs) pt ctx =
      convertElement res tg (.elem tg attrs cs) pt ctx := by
  rw [convertNode]

theorem convertChildren_eq (res : UrlRes) (el : DomNode) (ctx : ConversionContext) :
    convertChildren res el ctx =
      String.join ((childrenOf el).map (fun c => convertNode res c (some (tagOf el)) ctx)) := by
  rw [convertChildren]
  congr 1
  rw [show (fun (x : {x // x ∈ childrenOf el}) =>
        match x with
        | ⟨c, _⟩ => convertNode res c (some (tagOf el)) ctx)
      = (fun (x : {x // x ∈ childrenOf el}) =>
          convertNode res x.1 (some (tagOf el)) ctx) from rfl]
  exact List.attach_map_val (childrenOf el)
    (fun c => convertNode res c (some (tagOf el)) ctx)

set_option maxHeartbeats 1000000 in
theorem convertElement_skip (res : UrlRes) (tg : String) (el : DomNode)
    (pt : Option String) (ctx : ConversionContext) (h : shouldSkipElement el = true) :
    convertElement res tg el pt ctx = "" := by
  rw [convertElement, if_pos h]

set_option maxHeartbeats 1000000 in
theorem convertElement_img (res : UrlRes) (el : DomNode) (pt : Option String)
    (ctx : ConversionContext) (h : shouldSkipElement el = false) :
    convertElement res "img" el pt ctx =
      (let src := imgChosenSrc el
       if src = "" || strStarts src "data:image/gif" || strStarts src "data:image/svg+xml"
       then ""
       else
         let absoluteSrc := imgAbs res ctx.baseUrl src
         if !isSafeUrl absoluteSrc then ""
         else
           let alt := attrD el "alt"
           let title := attrD el "title"
           if title ≠ "" then
             "![" ++ alt ++ "](" ++ absoluteSrc ++ " \"" ++ escapeQuotes title ++ "\")"
           else "![" ++ alt ++ "](" ++ absoluteSrc ++ ")") := by
  rw [convertElement, if_neg (by rw [h]; exact Bool.false_ne_true)]
  rfl

set_option maxHeartbeats 1000000 in
theorem convertElement_a (res : UrlRes) (el : DomNode) (pt : Option String)
    (ctx : ConversionContext) (h : shouldSkipElement el = false) :
    convertElement res "a" el pt ctx =
      (let children := convertChildren res el ctx
       let absoluteHref := resolveUrl res (attrD el "href") ctx.baseUrl
       if !isSafeUrl absoluteHref then children
       else
         let text := if jsTrim children ≠ "" then jsTrim children else absoluteHref
         let title := attrD el "title"
         if title ≠ "" then
           "[" ++ text ++ "](" ++ absoluteHref ++ " \"" ++ escapeQuotes title ++ "\")"
         else "[" ++ text ++ "](" ++ absoluteHref ++ ")") := by
  rw [convertElement, if_neg (by rw [h]; exact Bool.false_ne_true)]
  rfl

set_option maxHeartbeats 1000000 in
theorem convertElement_td (res : UrlRes) (el : DomNode) (pt : Option String)
    (ctx : ConversionContext) (h : shouldSkipElement el = false) :
    convertElement res "td" el pt ctx = convertChildren res el ctx := by
  rw [convertElement, if_neg (by rw [h]; exact Bool.false_ne_true)]
  rfl

end OrcaClipper

namespace OrcaClipper

/-! ## C3: lazy-image fallback order -/

theorem imgLazyLoop_eq (el : DomNode) : ∀ attrs : List String,
    imgLazyLoop el attrs =
      ((attrs.filter (fun a =>
        match getAttr el a with
        | some v => v ≠ "" && !(strStarts v "data:") && (a ≠ "srcset" || srcsetFirst v ≠ "")
        | none => false)).head?).map
        (fun a => if a = "srcset" then srcsetFirst (attrD el a) else attrD el a) := by
  intro attrs
  induction attrs with
  | nil => rfl
  | cons a rest ih =>
    rw [imgLazyLoop, List.filter_cons]
    cases hg : getAttr el a with
    | none =>
      simp only [hg]
      exact ih
    | some v =>
      simp only [hg]
      by_cases h1 : (v ≠ "" && !(strStarts v "data:")) = true
      · obtain ⟨hv, hd⟩ : (¬ v = "") ∧ strStarts v "data:" = false := by simpa using h1
        rw [if_pos h1]
        by_cases hs : a = "srcset"
        · subst hs
          rw [if_pos rfl]
          show (if srcsetFirst v ≠ "" then some (srcsetFirst v) else imgLazyLoop el rest) = _
          by_cases hp : srcsetFirst v = ""
          · rw [if_neg (by simpa using hp), if_neg (by simp [hv, hd, hp]), ih]
          · rw [if_pos (by simpa using hp), if_pos (by simp [hv, hd, hp])]
            simp [attrD, hg]
        · rw [if_neg hs, if_pos (by simp [hv, hd, hs])]
          simp [hs, attrD, hg]
      · have h1f : (v ≠ "" && !(strStarts v "data:")) = false := Bool.eq_false_iff.mpr h1
        have hcond : (v ≠ "" && !(strStarts v "data:") &&
            (a ≠ "srcset" || srcsetFirst v ≠ "")) = false := by
          rw [h1f, Bool.false_and]
        rw [if_neg h1, if_neg (by rw [hcond]; exact Bool.false_ne_true)]
        exact ih

theorem imgChosenSrc_eq_spec (el : DomNode) : imgChosenSrc el = specLazyResolve el := by
  unfold imgChosenSrc specLazyResolve
  by_cases hp : isPlaceholderSrc (attrD el "src") = true
  · rw [if_pos hp, if_pos hp, imgLazyLoop_eq]
    cases (lazySrcAttrs.filter _).head? with
    | none => rfl
    | some a => rfl
  · rw [if_neg hp, if_neg hp]

/-- Claim C3: for an `img` whose `src` is empty or a placeholder, the source
resolves the image URL by the fixed lazy-load attribute order, taking the
first non-`data:`-URI value (with `srcset` contributing its first URL):
`imgChosenSrc` (the source's loop) equals `specLazyResolve` (the
first-match-by-order description of the claim); and the claim's concrete
instance `<img src="placeholder.gif" data-src="https://x/real.jpg" alt="alt">`
converts to `![alt](https://x/real.jpg)`. -/
theorem lazyImageResolution :
    (∀ el : DomNode, imgChosenSrc el = specLazyResolve el) ∧
      convertNode noRes exLazyImg none ctx0 = "![alt](https://x/real.jpg)" := by
  refine ⟨imgChosenSrc_eq_spec, ?_⟩
  rw [show exLazyImg = DomNode.elem "img"
      [("src", "placeholder.gif"), ("data-src", "https://x/real.jpg"), ("alt", "alt")] []
    from rfl, convertNode_elem, convertElement_img _ _ _ _ (by rfl)]
  rfl

/-! ## C4: unsafe-URL neutralization -/

theorem isSafeUrl_false_of_hit {u : String} (h : unsafePrefixHit u = true) :
    isSafeUrl u = false := by
  unfold isSafeUrl
  unfold unsafePrefixHit at h
  by_cases hu : u = ""
  · rw [if_pos hu]
  · rw [if_neg hu, h]
    rfl

/-- Claim C4: an anchor whose resolved `href` starts (case-insensitively,
after trimming) with `javascript:`, `vbscript:`, `data:text/html` or
`data:application/` converts to just its converted children, with no link
syntax (provided the anchor itself is not hidden); and an `img` whose resolved
source URL is unsafe by the same test converts to the empty string. -/
theorem unsafeUrlNeutralization (res : UrlRes) (ctx : ConversionContext)
    (pt : Option String)
    (aAttrs : List (String × String)) (aCs : List DomNode)
    (imgAttrs : List (String × String)) (imgCs : List DomNode)
    (haSkip : shouldSkipElement (.elem "a" aAttrs aCs) = false)
    (ha : unsafePrefixHit
      (resolveUrl res (attrD (.elem "a" aAttrs aCs) "href") ctx.baseUrl) = true)
    (hi : unsafePrefixHit
      (imgAbs res ctx.baseUrl (imgChosenSrc (.elem "img" imgAttrs imgCs))) = true) :
    convertNode res (.elem "a" aAttrs aCs) pt ctx =
        convertChildren res (.elem "a" aAttrs aCs) ctx ∧
      convertNode res (.elem "img" imgAttrs imgCs) pt ctx = "" := by
  constructor
  · rw [convertNode_elem, convertElement_a _ _ _ _ haSkip]
    simp only [isSafeUrl_false_of_hit ha, Bool.not_false, if_true]
  · rw [convertNode_elem]
    by_cases hsk : shouldSkipElement (DomNode.elem "img" imgAttrs imgCs) = true
    · exact convertElement_skip _ _ _ _ _ hsk
    · rw [convertElement_img _ _ _ _ (Bool.eq_false_iff.mpr hsk)]
      by_cases hempty : (imgChosenSrc (DomNode.elem "img" imgAttrs imgCs) = "" ||
          strStarts (imgChosenSrc (DomNode.elem "img" imgAttrs imgCs)) "data:image/gif" ||
          strStarts (imgChosenSrc (DomNode.elem "img" imgAttrs imgCs)) "data:image/svg+xml")
          = true
      · simp only [hempty, if_true]
      · simp only [Bool.eq_false_iff.mpr hempty, if_false,
          isSafeUrl_false_of_hit hi, Bool.not_false, if_true]
        rfl

theorem unsafeUrlNeutralization_witness :
    shouldSkipElement exUnsafeA = false ∧
      unsafePrefixHit (resolveUrl noRes (attrD exUnsafeA "href") ctx0.baseUrl) = true ∧
      unsafePrefixHit (imgAbs noRes ctx0.baseUrl (imgChosenSrc exUnsafeImg)) = true ∧
      (convertNode noRes exUnsafeA none ctx0 = convertChildren noRes exUnsafeA ctx0 ∧
        convertNode noRes exUnsafeImg none ctx0 = "") :=
  ⟨by decide, by decide, by decide,
    unsafeUrlNeutralization noRes ctx0 none
      [("href", "javascript:alert(1)")] [.text "click"]
      [("src", "javascript:alert(1)")] []
      (by decide) (by decide) (by decide)⟩

end OrcaClipper

namespace OrcaClipper

/-! ## C1: link-density rejection -/

theorem calculateContentScore_zero_of_density (sqrtQ : ℕ → ℚ) (el : DomNode)
    (depth : ℕ) (siblings : List DomNode) (h : linkDensityOf el > 1/2) :
    calculateContentScore sqrtQ el depth siblings = 0 := by
  simp only [calculateContentScore]
  by_cases hlen : collapsedTextLen el < 200
  · rw [if_pos hlen]
  · rw [if_neg hlen, if_pos h]

theorem flb_step_aux (sqrtQ : ℕ → ℚ) (root : DomNode) (el : DomNode)
    (h0 : ∀ d s, calculateContentScore sqrtQ el d s = 0) :
    ∀ (pairs : List (DomNode × List DomNode)) (acc : Option DomNode × ℚ),
      0 ≤ acc.2 → acc.1 ≠ some el →
      (pairs.foldl (fun best pair =>
        if isInsideUnwantedContainer pair.2 then best
        else if tagOf pair.1 = "nav" || tagOf pair.1 = "aside" || tagOf pair.1 = "footer"
        then best
        else
          let score := calculateContentScore sqrtQ pair.1 (depthOfPair pair)
            (siblingsOfPair root pair)
          if score > best.2 then (some pair.1, score) else best) acc).1 ≠ some el := by
  intro pairs
  induction pairs with
  | nil => intro acc _ h2; exact h2
  | cons p rest ih =>
    intro acc h1 h2
    rw [List.foldl_cons]
    by_cases hc1 : isInsideUnwantedContainer p.2 = true
    · rw [if_pos hc1]; exact ih acc h1 h2
    · rw [if_neg hc1]
      by_cases hc2 : (tagOf p.1 = "nav" || tagOf p.1 = "aside" || tagOf p.1 = "footer")
          = true
      · rw [if_pos hc2]; exact ih acc h1 h2
      · rw [if_neg hc2]
        show (rest.foldl _ (if calculateContentScore sqrtQ p.1 (depthOfPair p)
          (siblingsOfPair root p) > acc.2 then (some p.1, _) else acc)).1 ≠ some el
        by_cases hc3 : calculateContentScore sqrtQ p.1 (depthOfPair p)
            (siblingsOfPair root p) > acc.2
        · rw [if_pos hc3]
          refine ih _ (le_of_lt (lt_of_le_of_lt h1 hc3)) ?_
          intro hEq
          rw [Option.some.injEq] at hEq
          rw [hEq, h0 (depthOfPair p) (siblingsOfPair root p)] at hc3
          exact absurd (lt_of_le_of_lt h1 hc3) (lt_irrefl _)
        · rw [if_neg hc3]; exact ih acc h1 h2

/-- Claim C1: an element whose link density (total anchor text length divided
by whitespace-collapsed total text length) exceeds 0.5 scores exactly 0 in
`calculateContentScore` (for every `Math.sqrt` model and every depth/sibling
context), and is therefore never returned by `findLargestTextBlock`, which
only replaces its current best on a strictly greater — hence strictly
positive — score. -/
theorem linkDensityRejection (sqrtQ : ℕ → ℚ) (el : DomNode)
    (h : linkDensityOf el > 1/2) :
    (∀ depth siblings, calculateContentScore sqrtQ el depth siblings = 0) ∧
      ∀ root : DomNode, findLargestTextBlock sqrtQ root ≠ some el := by
  have h0 : ∀ d s, calculateContentScore sqrtQ el d s = 0 :=
    fun d s => calculateContentScore_zero_of_density sqrtQ el d s h
  refine ⟨h0, fun root => ?_⟩
  unfold findLargestTextBlock
  exact flb_step_aux sqrtQ root el h0 _ (none, 0) le_rfl (by simp)

theorem linkDensityRejection_witness :
    linkDensityOf exLinkyDiv > 1/2 ∧
      (calculateContentScore (fun _ => 0) exLinkyDiv 0 [] = 0 ∧
        findLargestTextBlock (fun _ => 0) exLinkyRoot ≠ some exLinkyDiv) := by
  have h : linkDensityOf exLinkyDiv > 1/2 := by
    have h1 : collapsedTextLen exLinkyDiv = 6 := by decide
    have h2 : ((findDesc (byTag "a") exLinkyDiv).map
        (fun a => (textContent a).length)).sum = 6 := by decide
    simp only [linkDensityOf, h1, h2]
    norm_num
  exact ⟨h, (linkDensityRejection (fun _ => 0) exLinkyDiv h).1 0 [],
    (linkDensityRejection (fun _ => 0) exLinkyDiv h).2 exLinkyRoot⟩

end OrcaClipper

namespace OrcaClipper

/-! ## C8: selector-priority order of the Content Locator -/

theorem findContentLoop_head_hit (root : DomNode) (sel : Sel) (rest : List Sel)
    (p : DomNode × List DomNode)
    (h : (queryPairs root sel).find? acceptElement = some p) :
    findContentLoop root (sel :: rest) = some p.1 := by
  rw [findContentLoop, h]

set_option linter.unusedVariables false in
/-- Claim C8: Phase 1 of the Content Locator scans the selector list in fixed
priority order and, within each selector, in document order, returning the
first accepted match; since `[itemprop="articleBody"]` precedes `main` in
`ARTICLE_SELECTORS`, a document with an accepted `articleBody` match and an
accepted `main` match yields an element carrying
`itemprop="articleBody"`, regardless of document order. -/
theorem contentLocatorPriority (root : DomNode)
    (hBody : (queryPairs root
      (Sel.simple (SSel.attrEq "itemprop" "articleBody"))).any acceptElement = true)
    (hMain : (queryPairs root
      (Sel.simple (SSel.tagName "main"))).any acceptElement = true) :
    ∃ e, findContentElement root = some e ∧
      getAttr e "itemprop" = some "articleBody" := by
  have hsome : ((queryPairs root
      (Sel.simple (SSel.attrEq "itemprop" "articleBody"))).find? acceptElement).isSome := by
    obtain ⟨x, hx, hpx⟩ := List.any_eq_true.mp hBody
    exact List.find?_isSome.mpr ⟨x, hx, hpx⟩
  obtain ⟨p, hp⟩ := Option.isSome_iff_exists.mp hsome
  refine ⟨p.1, ?_, ?_⟩
  · rw [findContentElement,
      show ARTICLE_SELECTORS
        = Sel.simple (SSel.attrEq "itemprop" "articleBody") :: ARTICLE_SELECTORS.tail
        from rfl]
    exact findContentLoop_head_hit root _ _ p hp
  · have hmem := List.mem_of_find?_eq_some hp
    rw [queryPairs] at hmem
    have hmatch := (List.mem_filter.mp hmem).2
    simpa [selectorMatches, matchesSimple] using hmatch

set_option maxRecDepth 40000 in
theorem contentLocatorPriority_witness :
    ((queryPairs exC8Doc
        (Sel.simple (SSel.attrEq "itemprop" "articleBody"))).any acceptElement = true ∧
      (queryPairs exC8Doc
        (Sel.simple (SSel.tagName "main"))).any acceptElement = true) ∧
    ∃ e, findContentElement exC8Doc = some e ∧
      getAttr e "itemprop" = some "articleBody" :=
  ⟨⟨by decide, by decide⟩, contentLocatorPriority exC8Doc (by decide) (by decide)⟩

end OrcaClipper

namespace OrcaClipper

/-! ## C9: header synthesis and separator width for headerless tables -/

theorem attachMap_cells_eq (res : UrlRes) (ctx : ConversionContext) (l : List DomNode) :
    l.attach.map (fun ⟨tr, _⟩ => extractTableCells res tr ctx) =
      l.map (fun tr => extractTableCells res tr ctx) := by
  rw [show (fun (x : {x // x ∈ l}) =>
        match x with
        | ⟨tr, _⟩ => extractTableCells res tr ctx)
      = (fun (x : {x // x ∈ l}) => extractTableCells res x.1 ctx) from rfl]
  exact List.attach_map_val l (fun tr => extractTableCells res tr ctx)

theorem extractTableCells_eq (res : UrlRes) (tr : DomNode) (ctx : ConversionContext) :
    extractTableCells res tr ctx =
      ((findDesc (byTags ["th", "td"]) tr).map
        (fun cell => cellEscape (jsTrim (convertNode res cell none ctx)) ::
          List.replicate (colspanExtras (cellColspanAttr cell)) "")).flatten := by
  rw [extractTableCells]
  congr 1
  rw [show (fun (x : {x // x ∈ findDesc (byTags ["th", "td"]) tr}) =>
        match x with
        | ⟨cell, _⟩ => cellEscape (jsTrim (convertNode res cell none ctx)) ::
            List.replicate (colspanExtras (cellColspanAttr cell)) "")
      = (fun (x : {x // x ∈ findDesc (byTags ["th", "td"]) tr}) =>
          cellEscape (jsTrim (convertNode res x.1 none ctx)) ::
            List.replicate (colspanExtras (cellColspanAttr x.1)) "") from rfl]
  exact List.attach_map_val (findDesc (byTags ["th", "td"]) tr)
    (fun cell => cellEscape (jsTrim (convertNode res cell none ctx)) ::
      List.replicate (colspanExtras (cellColspanAttr cell)) "")

/-- `convertTable` with the `attach`s removed and the two identical output
branches merged. -/
theorem convertTable_eq (res : UrlRes) (table : DomNode) (ctx : ConversionContext) :
    convertTable res table ctx =
      (let theadRows := ((tableTheadTrs table).map
          (fun tr => extractTableCells res tr ctx)).filter (fun r => r ≠ [])
       let bodyCells := (tableBodyRows table).map (fun tr => extractTableCells res tr ctx)
       let rows := theadRows ++ bodyCells.filter (fun r => r ≠ [])
       if rows = [] then ""
       else
         let colCount := (rows.map List.length).foldl max 0
         let normalizedRows := rows.map (fun r => r ++ List.replicate (colCount - r.length) "")
         let r0 := normalizedRows.headD []
         let body := String.join ((normalizedRows.drop 1).map mdRowStr)
         "\n\n" ++ mdRowStr r0 ++ mdRowStr (r0.map (fun _ => "---")) ++ body ++ "\n") := by
  rw [convertTable, attachMap_cells_eq res ctx (tableTheadTrs table),
      attachMap_cells_eq res ctx (tableBodyRows table)]
  simp only [ite_self]

theorem convertNode_tdcell (s : String) :
    convertNode noRes (DomNode.elem "td" [] [DomNode.text s]) none ctx0 =
      ⟨collapseTabNl s.data⟩ := by
  rw [convertNode_elem,
    convertElement_td noRes (DomNode.elem "td" [] [DomNode.text s]) none ctx0 rfl,
    convertChildren_eq]
  show String.join [convertNode noRes (DomNode.text s) (some "td") ctx0] = _
  rw [convertNode_text]
  rfl

theorem extractTableCells_exC9Tr1 : extractTableCells noRes exC9Tr1 ctx0 = ["a"] := by
  rw [extractTableCells_eq]
  show [cellEscape (jsTrim (convertNode noRes (DomNode.elem "td" [] [DomNode.text "a"])
    none ctx0))] = ["a"]
  rw [convertNode_tdcell]
  rfl

theorem extractTableCells_exC9Tr2 :
    extractTableCells noRes exC9Tr2 ctx0 = ["b", "c"] := by
  rw [extractTableCells_eq]
  show [cellEscape (jsTrim (convertNode noRes (DomNode.elem "td" [] [DomNode.text "b"])
      none ctx0)),
    cellEscape (jsTrim (convertNode noRes (DomNode.elem "td" [] [DomNode.text "c"])
      none ctx0))] = ["b", "c"]
  rw [convertNode_tdcell, convertNode_tdcell]
  rfl

theorem convertTable_exC9 :
    convertTable noRes exC9Table ctx0 = "\n\n| a |  |\n| --- | --- |\n| b | c |\n\n" := by
  rw [convertTable_eq, show tableBodyRows exC9Table = [exC9Tr1, exC9Tr2] from rfl,
      show tableTheadTrs exC9Table = ([] : List DomNode) from rfl]
  simp only [List.map_cons, List.map_nil, List.filter_nil, List.nil_append,
    extractTableCells_exC9Tr1, extractTableCells_exC9Tr2]
  decide

/-- Claim C9 (counterexample): `exC9Table` has no `thead` and no `th` cells;
its first data row expands to one cell, but the separator line of the
converted output carries two `---` cells (one per column of the widest row),
so the separator width does not match the first data row's column count. -/
theorem tableSeparator_claim_counterexample :
    (queryFirst (byTag "thead") exC9Table = none ∧
      (∀ tr ∈ tableBodyRows exC9Table, findDesc (byTag "th") tr = [])) ∧
    sepCellCount (secondTableLine (convertTable noRes exC9Table ctx0)) ≠
      (extractTableCells noRes exC9Tr1 ctx0).length := by
  refine ⟨⟨rfl, ?_⟩, ?_⟩
  · intro tr htr
    have h := htr
    rw [show tableBodyRows exC9Table = [exC9Tr1, exC9Tr2] from rfl] at h
    rcases List.mem_cons.mp h with h' | h'
    · subst h'; rfl
    · rcases List.mem_cons.mp h' with h'' | h''
      · subst h''; rfl
      · cases h''
  · rw [convertTable_exC9, extractTableCells_exC9Tr1]
    decide

end OrcaClipper

namespace OrcaClipper

theorem init_le_foldl_max (l : List ℕ) : ∀ a : ℕ, a ≤ l.foldl max a := by
  induction l with
  | nil => intro a; exact le_rfl
  | cons b t ih =>
    intro a
    rw [List.foldl_cons]
    exact le_trans (le_max_left a b) (ih (max a b))

theorem le_foldl_max (l : List ℕ) : ∀ (a x : ℕ), x ∈ l → x ≤ l.foldl max a := by
  induction l with
  | nil => intro a x h; cases h
  | cons b t ih =>
    intro a x h
    rw [List.foldl_cons]
    rcases List.mem_cons.mp h with h' | h'
    · subst h'
      exact le_trans (le_max_right a x) (init_le_foldl_max t (max a x))
    · exact ih (max a b) x h'

set_option linter.unusedVariables false in
/-- Claim C9 (amended): for a table with no `thead` element and no `th` cells
whose body rows yield at least one nonempty cell row, the converter still
synthesizes a Markdown header from the first data row, and the second output
line consists entirely of `---` separators — but one per column of the
*widest* row (the maximum cell count over all kept rows, after colspan
expansion), the first data row being padded with empty cells to that width;
the separator count equals the first data row's column count only when the
first row is already the widest. -/
theorem tableSeparator_amended (res : UrlRes) (table : DomNode) (ctx : ConversionContext)
    (h1 : queryFirst (byTag "thead") table = none)
    (h2 : ∀ tr ∈ tableBodyRows table, findDesc (byTag "th") tr = [])
    (h3 : ((tableBodyRows table).map (fun tr => extractTableCells res tr ctx)).filter
        (fun r => r ≠ []) ≠ []) :
    convertTable res table ctx =
      (let rows := ((tableBodyRows table).map
          (fun tr => extractTableCells res tr ctx)).filter (fun r => r ≠ [])
       let colCount := (rows.map List.length).foldl max 0
       "\n\n" ++
         mdRowStr (rows.headD [] ++ List.replicate (colCount - (rows.headD []).length) "")
         ++ mdRowStr (List.replicate colCount "---")
         ++ String.join (((rows.map
              (fun r => r ++ List.replicate (colCount - r.length) "")).drop 1).map mdRowStr)
         ++ "\n") := by
  have hth : tableTheadTrs table = [] := by rw [tableTheadTrs, h1]
  rw [convertTable_eq, hth]
  simp only [List.map_nil, List.filter_nil, List.nil_append]
  rw [if_neg h3]
  obtain ⟨r, t, hrt⟩ : ∃ r t,
      ((tableBodyRows table).map (fun tr => extractTableCells res tr ctx)).filter
        (fun r => r ≠ []) = r :: t := by
    cases hc : ((tableBodyRows table).map (fun tr => extractTableCells res tr ctx)).filter
        (fun r => r ≠ []) with
    | nil => exact absurd hc h3
    | cons r t => exact ⟨r, t, rfl⟩
  rw [hrt]
  simp only [List.map_cons, List.headD_cons, List.drop_succ_cons, List.drop_zero]
  have hle : r.length ≤ ((r.length :: t.map List.length).foldl max 0) :=
    le_foldl_max _ 0 r.length (List.mem_cons_self _ _)
  have hsep : (r ++ List.replicate
        (((r.length :: t.map List.length).foldl max 0) - r.length) "").map
        (fun _ => "---")
      = List.replicate ((r.length :: t.map List.length).foldl max 0) "---" := by
    rw [List.map_append, List.map_const', List.map_const', List.length_replicate,
      ← List.replicate_add]
    congr 1
    omega
  rw [hsep]

theorem tableSeparator_amended_witness :
    (queryFirst (byTag "thead") exC9Table = none ∧
      (∀ tr ∈ tableBodyRows exC9Table, findDesc (byTag "th") tr = []) ∧
      ((tableBodyRows exC9Table).map (fun tr => extractTableCells noRes tr ctx0)).filter
        (fun r => r ≠ []) ≠ []) ∧
    convertTable noRes exC9Table ctx0 =
      (let rows := ((tableBodyRows exC9Table).map
          (fun tr => extractTableCells noRes tr ctx0)).filter (fun r => r ≠ [])
       let colCount := (rows.map List.length).foldl max 0
       "\n\n" ++
         mdRowStr (rows.headD [] ++ List.replicate (colCount - (rows.headD []).length) "")
         ++ mdRowStr (List.replicate colCount "---")
         ++ String.join (((rows.map
              (fun r => r ++ List.replicate (colCount - r.length) "")).drop 1).map mdRowStr)
         ++ "\n") := by
  have hA : queryFirst (byTag "thead") exC9Table = none := rfl
  have hB : ∀ tr ∈ tableBodyRows exC9Table, findDesc (byTag "th") tr = [] := by
    intro tr htr
    have h := htr
    rw [show tableBodyRows exC9Table = [exC9Tr1, exC9Tr2] from rfl] at h
    rcases List.mem_cons.mp h with h' | h'
    · subst h'; rfl
    · rcases List.mem_cons.mp h' with h'' | h''
      · subst h''; rfl
      · cases h''
  have hC : ((tableBodyRows exC9Table).map
      (fun tr => extractTableCells noRes tr ctx0)).filter (fun r => r ≠ []) ≠ [] := by
    rw [show tableBodyRows exC9Table = [exC9Tr1, exC9Tr2] from rfl]
    simp only [List.map_cons, List.map_nil, extractTableCells_exC9Tr1,
      extractTableCells_exC9Tr2]
    decide
  exact ⟨⟨hA, hB, hC⟩, tableSeparator_amended noRes exC9Table ctx0 hA hB hC⟩

end OrcaClipper

namespace OrcaClipper

/-! ## Further newline-run accounting for `collapseNl` -/

theorem nlRunsOK_mono : ∀ (l : List Char) (m n : ℕ), m ≤ n →
    nlRunsOK n l = true → nlRunsOK m l = true := by
  intro l
  induction l with
  | nil =>
    intro m n hmn h
    rw [nlRunsOK_nil] at h ⊢
    exact decide_eq_true (le_trans hmn (of_decide_eq_true h))
  | cons c rest ih =>
    intro m n hmn h
    by_cases hc : c = '\n'
    · subst hc
      rw [nlRunsOK_cons_nl] at h ⊢
      exact ih (m + 1) (n + 1) (Nat.succ_le_succ hmn) h
    · rw [nlRunsOK_cons_ne _ _ hc] at h ⊢
      rw [Bool.and_eq_true] at h ⊢
      exact ⟨decide_eq_true (le_trans hmn (of_decide_eq_true h.1)), h.2⟩

theorem nlRunsOK_zero_tail (c : Char) (l : List Char)
    (h : nlRunsOK 0 (c :: l) = true) : nlRunsOK 0 l = true := by
  by_cases hc : c = '\n'
  · subst hc
    rw [nlRunsOK_cons_nl] at h
    exact nlRunsOK_mono l 0 1 (by omega) h
  · rw [nlRunsOK_cons_ne _ _ hc, Bool.and_eq_true] at h
    exact h.2

theorem nlRunsOK_suff : ∀ (l x : List Char), x <:+ l →
    nlRunsOK 0 l = true → nlRunsOK 0 x = true := by
  intro l
  induction l with
  | nil =>
    intro x hx h
    rw [List.suffix_nil.mp hx]
    exact h
  | cons c rest ih =>
    intro x hx h
    rcases hx with ⟨s, hs⟩
    cases s with
    | nil =>
      rw [List.nil_append] at hs
      rw [hs]
      exact h
    | cons d s' =>
      refine ih x ⟨s', ?_⟩ (nlRunsOK_zero_tail c rest h)
      rw [List.cons_append] at hs
      injection hs with h1 h2

theorem nlRunsOK_pref : ∀ (x l : List Char) (m : ℕ), x <+: l →
    nlRunsOK m l = true → nlRunsOK m x = true := by
  intro x
  induction x with
  | nil =>
    intro l m _ h
    rw [nlRunsOK_nil]
    exact decide_eq_true (nlRunsOK_le h)
  | cons c t ih =>
    intro l m hx h
    rcases hx with ⟨s, hs⟩
    subst hs
    rw [List.cons_append] at h
    by_cases hc : c = '\n'
    · subst hc
      rw [nlRunsOK_cons_nl] at h ⊢
      exact ih (t ++ s) (m + 1) ⟨s, rfl⟩ h
    · rw [nlRunsOK_cons_ne _ _ hc] at h ⊢
      rw [Bool.and_eq_true] at h ⊢
      exact ⟨h.1, ih (t ++ s) 0 ⟨s, rfl⟩ h.2⟩

theorem collapseNl_eq_of_nlRunsOK : ∀ (l : List Char) (n : ℕ), nlRunsOK n l = true →
    collapseNl n l = List.replicate n '\n' ++ l := by
  intro l
  induction l with
  | nil =>
    intro n h
    rw [nlRunsOK_nil] at h
    rw [collapseNl_nil, List.append_nil, min_eq_left (of_decide_eq_true h)]
  | cons c rest ih =>
    intro n h
    by_cases hc : c = '\n'
    · subst hc
      rw [nlRunsOK_cons_nl] at h
      rw [collapseNl_cons_nl, ih (n + 1) h, List.replicate_succ', List.append_assoc]
      rfl
    · rw [nlRunsOK_cons_ne _ _ hc, Bool.and_eq_true] at h
      rw [collapseNl_cons_ne _ _ hc, ih 0 h.2, List.replicate_zero, List.nil_append,
        min_eq_left (of_decide_eq_true h.1)]

theorem collapseNl_fix (l : List Char) (h : nlRunsOK 0 l = true) :
    collapseNl 0 l = l := by
  rw [collapseNl_eq_of_nlRunsOK l 0 h, List.replicate_zero, List.nil_append]

end OrcaClipper

namespace OrcaClipper

/-! ## Preservation of the no-whitespace-before-newline invariant -/

theorem noWsNl_tail {a : Char} {l : List Char} (h : noWsNl (a :: l) = true) :
    noWsNl l = true := by
  cases l with
  | nil => rfl
  | cons b t =>
    rw [noWsNl, Bool.and_eq_true] at h
    exact h.2

theorem noWsNl_nl_cons (rest : List Char) (h : noWsNl rest = true) :
    noWsNl ('\n' :: rest) = true := by
  cases rest with
  | nil => rfl
  | cons b t =>
    rw [noWsNl, Bool.and_eq_true]
    exact ⟨by simp, h⟩

theorem noWsNl_suff : ∀ (l x : List Char), x <:+ l →
    noWsNl l = true → noWsNl x = true := by
  intro l
  induction l with
  | nil =>
    intro x hx h
    rw [List.suffix_nil.mp hx]
    rfl
  | cons c rest ih =>
    intro x hx h
    rcases hx with ⟨s, hs⟩
    cases s with
    | nil =>
      rw [List.nil_append] at hs
      rw [hs]
      exact h
    | cons d s' =>
      refine ih x ⟨s', ?_⟩ (noWsNl_tail h)
      rw [List.cons_append] at hs
      injection hs with h1 h2

theorem noWsNl_pref : ∀ (x l : List Char), x <+: l →
    noWsNl l = true → noWsNl x = true := by
  intro x
  induction x with
  | nil => intro l _ _; rfl
  | cons a t ih =>
    intro l hx h
    cases t with
    | nil => rfl
    | cons b t' =>
      rcases hx with ⟨s, hs⟩
      subst hs
      rw [List.cons_append, List.cons_append] at h
      rw [noWsNl, Bool.and_eq_true] at h ⊢
      exact ⟨h.1, ih (b :: (t' ++ s)) ⟨s, rfl⟩ h.2⟩

theorem noWsNl_of_not_nl : ∀ (m : List Char), '\n' ∉ m → noWsNl m = true := by
  intro m
  induction m with
  | nil => intro _; rfl
  | cons a t ih =>
    intro h
    cases t with
    | nil => rfl
    | cons b t' =>
      rw [noWsNl, Bool.and_eq_true]
      refine ⟨?_, ih (fun hb => h (List.mem_cons_of_mem a hb))⟩
      have hb : ¬ (b = '\n') := fun he =>
        h (List.mem_cons_of_mem a (he ▸ List.mem_cons_self b t'))
      simp [hb]

theorem noWsNl_replicate_nl : ∀ (k : ℕ) (x : List Char), noWsNl x = true →
    noWsNl (List.replicate k '\n' ++ x) = true := by
  intro k
  induction k with
  | zero =>
    intro x h
    rw [List.replicate_zero, List.nil_append]
    exact h
  | succ k ih =>
    intro x h
    rw [List.replicate_succ, List.cons_append]
    exact noWsNl_nl_cons _ (ih x h)

theorem collapseNl_head_nl (rest : List Char)
    (h : (collapseNl 0 rest).head? = some '\n') : rest.head? = some '\n' := by
  cases rest with
  | nil =>
    rw [collapseNl_nil] at h
    simp at h
  | cons c r =>
    by_cases hc : c = '\n'
    · rw [hc]
      rfl
    · rw [collapseNl_cons_ne _ _ hc] at h
      simp at h
      exact absurd h hc

theorem noWsNl_collapseNl : ∀ (l : List Char) (n : ℕ), noWsNl l = true →
    noWsNl (collapseNl n l) = true := by
  intro l
  induction l with
  | nil =>
    intro n _
    rw [collapseNl_nil]
    have h0 := noWsNl_replicate_nl (min n 2) [] rfl
    rw [List.append_nil] at h0
    exact h0
  | cons c rest ih =>
    intro n h
    by_cases hc : c = '\n'
    · subst hc
      rw [collapseNl_cons_nl]
      exact ih (n + 1) (noWsNl_tail h)
    · rw [collapseNl_cons_ne _ _ hc]
      apply noWsNl_replicate_nl
      have hrec : noWsNl (collapseNl 0 rest) = true := ih 0 (noWsNl_tail h)
      cases hcr : collapseNl 0 rest with
      | nil => rfl
      | cons d t =>
        rw [noWsNl, Bool.and_eq_true]
        refine ⟨?_, by rw [← hcr]; exact hrec⟩
        by_cases hd : d = '\n'
        · subst hd
          have hrh : rest.head? = some '\n' :=
            collapseNl_head_nl rest (by rw [hcr]; rfl)
          cases rest with
          | nil => simp at hrh
          | cons e r2 =>
            rw [List.head?_cons, Option.some.injEq] at hrh
            subst hrh
            rw [noWsNl, Bool.and_eq_true] at h
            exact h.1
        · simp [hd]

end OrcaClipper

namespace OrcaClipper

/-! ## `splitOn`/`intercalate` facts for the line structure of the output -/

theorem splitOn_nl_cons (l : List Char) :
    ('\n' :: l).splitOn '\n' = [] :: l.splitOn '\n' := by
  show ('\n' :: l).splitOnP (· == '\n') = [] :: l.splitOnP (· == '\n')
  rw [List.splitOnP_cons, if_pos (by simp)]

theorem splitOn_cons_ne {c : Char} (l : List Char) (hc : ¬ (c = '\n')) :
    (c :: l).splitOn '\n' = (l.splitOn '\n').modifyHead (List.cons c) := by
  show (c :: l).splitOnP (· == '\n') =
    ((l.splitOnP (· == '\n')).modifyHead (List.cons c))
  rw [List.splitOnP_cons, if_neg (by simp [hc])]

theorem splitOn_nl_ne_nil (l : List Char) : l.splitOn '\n' ≠ [] :=
  List.splitOnP_ne_nil _ l

theorem not_nl_mem_splitOn : ∀ (l m : List Char), m ∈ l.splitOn '\n' → '\n' ∉ m := by
  intro l
  induction l with
  | nil =>
    intro m h
    rw [List.splitOn_nil] at h
    rcases List.mem_cons.mp h with h' | h'
    · subst h'
      exact List.not_mem_nil _
    · cases h'
  | cons c rest ih =>
    intro m h
    by_cases hc : c = '\n'
    · subst hc
      rw [splitOn_nl_cons] at h
      rcases List.mem_cons.mp h with h' | h'
      · subst h'
        exact List.not_mem_nil _
      · exact ih m h'
    · rw [splitOn_cons_ne rest hc] at h
      cases hl : rest.splitOn '\n' with
      | nil => exact absurd hl (splitOn_nl_ne_nil rest)
      | cons h0 t =>
        rw [hl] at h
        rw [show (h0 :: t).modifyHead (List.cons c) = (c :: h0) :: t from rfl] at h
        rcases List.mem_cons.mp h with h' | h'
        · subst h'
          intro hmem
          rcases List.mem_cons.mp hmem with h'' | h''
          · exact hc h''.symm
          · exact ih h0 (by rw [hl]; exact List.mem_cons_self h0 t) h''
        · exact ih m (by rw [hl]; exact List.mem_cons_of_mem h0 h')

theorem lastCharOK_tail {a : Char} {l : List Char} (h : lastCharOK (a :: l) = true)
    (hne : l ≠ []) : lastCharOK l = true := by
  cases l with
  | nil => exact absurd rfl hne
  | cons b t =>
    rw [lastCharOK] at h ⊢
    rw [List.getLast?_cons_cons] at h
    exact h

theorem intercalate_nl_single (m : List Char) : List.intercalate ['\n'] [m] = m := by
  simp [List.intercalate]

theorem intercalate_nl_cons2 (m m2 : List Char) (M : List (List Char)) :
    List.intercalate ['\n'] (m :: m2 :: M) =
      m ++ '\n' :: List.intercalate ['\n'] (m2 :: M) := by
  simp [List.intercalate, List.intersperse_cons_cons]

theorem noWsNl_piece_glue : ∀ (m : List Char), '\n' ∉ m →
    (∀ h : m ≠ [], ¬ (isJsWs (m.getLast h) = true)) → ∀ (rest : List Char),
    noWsNl rest = true → noWsNl (m ++ '\n' :: rest) = true := by
  intro m
  induction m with
  | nil =>
    intro _ _ rest h
    rw [List.nil_append]
    exact noWsNl_nl_cons rest h
  | cons a t ih =>
    intro hnl hlast rest h
    cases t with
    | nil =>
      rw [List.cons_append, List.nil_append, noWsNl, Bool.and_eq_true]
      refine ⟨?_, noWsNl_nl_cons rest h⟩
      have hws : ¬ (isJsWs a = true) := hlast (List.cons_ne_nil a [])
      simp [Bool.eq_false_iff.mpr hws]
    | cons b t' =>
      rw [List.cons_append, List.cons_append, noWsNl, Bool.and_eq_true]
      rw [← List.cons_append]
      refine ⟨?_, ih (fun hb => hnl (List.mem_cons_of_mem a hb)) ?_ rest h⟩
      · have hb : ¬ (b = '\n') := fun he =>
          hnl (List.mem_cons_of_mem a (he ▸ List.mem_cons_self b t'))
        simp [hb]
      · intro hne
        have hl2 := hlast (List.cons_ne_nil a (b :: t'))
        rw [List.getLast_cons hne] at hl2
        exact hl2

theorem noWsNl_intercalate : ∀ (M : List (List Char)),
    (∀ m ∈ M, '\n' ∉ m) →
    (∀ m ∈ M, ∀ h : m ≠ [], ¬ (isJsWs (m.getLast h) = true)) →
    noWsNl (List.intercalate ['\n'] M) = true := by
  intro M
  induction M with
  | nil => intro _ _; rfl
  | cons m M' ih =>
    intro hnl hlast
    cases M' with
    | nil =>
      rw [intercalate_nl_single]
      exact noWsNl_of_not_nl m (hnl m (List.mem_cons_self m []))
    | cons m2 M'' =>
      rw [intercalate_nl_cons2]
      exact noWsNl_piece_glue m (hnl m (List.mem_cons_self _ _))
        (hlast m (List.mem_cons_self _ _)) _
        (ih (fun x hx => hnl x (List.mem_cons_of_mem m hx))
          (fun x hx => hlast x (List.mem_cons_of_mem m hx)))

end OrcaClipper

namespace OrcaClipper

/-! ## Every line of a `noWsNl` string with a clean last character is
right-trimmed -/

theorem splitOn_lines_trimmed : ∀ (l : List Char), noWsNl l = true →
    lastCharOK l = true → ∀ m ∈ l.splitOn '\n', jsTrimEndL m = m := by
  intro l
  induction l with
  | nil =>
    intro _ _ m h
    rw [List.splitOn_nil] at h
    rcases List.mem_cons.mp h with h' | h'
    · subst h'; rfl
    · cases h'
  | cons a l' ih =>
    intro hws hlast m hm
    by_cases ha : a = '\n'
    · subst ha
      rw [splitOn_nl_cons] at hm
      rcases List.mem_cons.mp hm with h' | h'
      · subst h'; rfl
      · by_cases hl' : l' = []
        · subst hl'
          rw [List.splitOn_nil] at h'
          rcases List.mem_cons.mp h' with h'' | h''
          · subst h''; rfl
          · cases h''
        · exact ih (noWsNl_tail hws) (lastCharOK_tail hlast hl') m h'
    · rw [splitOn_cons_ne l' ha] at hm
      cases hsp : l'.splitOn '\n' with
      | nil => exact absurd hsp (splitOn_nl_ne_nil l')
      | cons h0 t =>
        rw [hsp] at hm
        rw [show (h0 :: t).modifyHead (List.cons a) = (a :: h0) :: t from rfl] at hm
        rcases List.mem_cons.mp hm with h' | h'
        · subst h'
          by_cases hh0 : h0 = []
          · subst hh0
            have hok : isJsWs a = false := by
              by_cases hl' : l' = []
              · subst hl'
                rw [lastCharOK] at hlast
                have h2 : (!(isJsWs a && !(decide (a = '\n')))) = true := hlast
                simpa [ha] using h2
              · obtain ⟨d, r, hd⟩ := List.exists_cons_of_ne_nil hl'
                by_cases hdn : d = '\n'
                · have hpair : noWsNl (a :: '\n' :: r) = true := by
                    rw [← hdn, ← hd]
                    exact hws
                  rw [noWsNl, Bool.and_eq_true] at hpair
                  simpa [ha] using hpair.1
                · rw [hd, splitOn_cons_ne r hdn] at hsp
                  cases hr : r.splitOn '\n' with
                  | nil => exact absurd hr (splitOn_nl_ne_nil r)
                  | cons g0 gt =>
                    rw [hr] at hsp
                    rw [show (g0 :: gt).modifyHead (List.cons d) = (d :: g0) :: gt
                      from rfl] at hsp
                    injection hsp with hh _
                    exact absurd hh (List.cons_ne_nil d g0)
            rw [jsTrimEndL, List.rdropWhile_singleton, if_neg (by rw [hok]; decide)]
          · have hl' : l' ≠ [] := by
              intro he
              rw [he, List.splitOn_nil] at hsp
              injection hsp with hh _
              exact hh0 hh.symm
            have htr : jsTrimEndL h0 = h0 :=
              ih (noWsNl_tail hws) (lastCharOK_tail hlast hl') h0
                (by rw [hsp]; exact List.mem_cons_self h0 t)
            rw [jsTrimEndL] at htr ⊢
            have hlst := List.rdropWhile_eq_self_iff.mp htr hh0
            apply List.rdropWhile_eq_self_iff.mpr
            intro _
            rw [List.getLast_cons hh0]
            exact hlst
        · by_cases hl' : l' = []
          · subst hl'
            rw [List.splitOn_nil] at hsp
            injection hsp with _ ht
            rw [← ht] at h'
            cases h'
          · exact ih (noWsNl_tail hws) (lastCharOK_tail hlast hl') m
              (by rw [hsp]; exact List.mem_cons_of_mem h0 h')

theorem lastCharOK_of_trimEnd (l : List Char) : lastCharOK (jsTrimEndL l) = true := by
  cases hl : (jsTrimEndL l).getLast? with
  | none => rw [lastCharOK, hl]
  | some c =>
    rw [lastCharOK, hl]
    show (!(isJsWs c && !(decide (c = '\n')))) = true
    have hne : jsTrimEndL l ≠ [] := by
      intro he
      rw [he] at hl
      simp at hl
    have hgl := List.getLast?_eq_getLast (jsTrimEndL l) hne
    rw [hl] at hgl
    injection hgl with hc
    have hlast : ¬ (isJsWs ((jsTrimEndL l).getLast hne) = true) :=
      List.rdropWhile_last_not isJsWs l hne
    rw [← hc] at hlast
    rw [Bool.eq_false_iff.mpr hlast]
    rfl

theorem lastCharOK_jsTrimL (l : List Char) : lastCharOK (jsTrimL l) = true :=
  lastCharOK_of_trimEnd (jsTrimStartL l)

theorem jsTrimL_idem (l : List Char) : jsTrimL (jsTrimL l) = jsTrimL l := by
  have h1 : jsTrimStartL (jsTrimL l) = jsTrimL l := by
    rw [jsTrimStartL]
    apply List.dropWhile_eq_self_iff.mpr
    intro hl
    have hpre : jsTrimL l <+: jsTrimStartL l :=
      List.rdropWhile_prefix isJsWs (jsTrimStartL l)
    have h0 : (jsTrimL l).get ⟨0, hl⟩ =
        (jsTrimStartL l).get ⟨0, lt_of_lt_of_le hl hpre.length_le⟩ := by
      simp [List.get_eq_getElem, List.IsPrefix.getElem hpre]
    rw [h0]
    exact List.dropWhile_get_zero_not isJsWs l _
  calc jsTrimL (jsTrimL l) = jsTrimEndL (jsTrimStartL (jsTrimL l)) := rfl
    _ = jsTrimEndL (jsTrimL l) := by rw [h1]
    _ = jsTrimL l := by
        show List.rdropWhile isJsWs (List.rdropWhile isJsWs (jsTrimStartL l)) = jsTrimL l
        rw [List.rdropWhile_idempotent]
        rfl

theorem normEol_cons_ne (c : Char) (rest : List Char)
    (h : ∀ r, ¬ (c = '\r' ∧ rest = '\n' :: r)) :
    normEol (c :: rest) = c :: normEol rest := by
  rw [normEol.eq_def]
  split
  · rename_i r heq
    injection heq with h1 h2
    exact absurd ⟨h1, h2⟩ (h r)
  · rename_i heq
    injection heq with h1 h2
    rw [h1, h2]
  · rename_i heq
    cases heq

theorem normEol_fix_of_noWsNl : ∀ (l : List Char), noWsNl l = true → normEol l = l := by
  intro l
  induction l using normEol.induct with
  | case1 rest ih =>
    intro h
    rw [noWsNl, Bool.and_eq_true] at h
    exact absurd h.1 (by decide)
  | case2 c rest hne ih =>
    intro h
    rw [normEol_cons_ne c rest
      (fun r hcr => hne r hcr.1 hcr.2), ih (noWsNl_tail h)]
  | case3 =>
    intro _
    rfl

end OrcaClipper

namespace OrcaClipper

/-! ## Master properties of `normalizeOutput` -/

theorem normalizeOutput_noWsNl (s : String) :
    noWsNl (normalizeOutput s).data = true := by
  show noWsNl (jsTrimL (collapseNl 0 (List.intercalate ['\n']
    (((normEol s.data).splitOn '\n').map jsTrimEndL)))) = true
  have hM1 : ∀ m ∈ ((normEol s.data).splitOn '\n').map jsTrimEndL, '\n' ∉ m := by
    intro m hm
    rw [List.mem_map] at hm
    obtain ⟨m0, hm0, hme⟩ := hm
    subst hme
    intro hmem
    have hpre := List.rdropWhile_prefix isJsWs m0
    exact not_nl_mem_splitOn (normEol s.data) m0 hm0 (hpre.sublist.subset hmem)
  have hM2 : ∀ m ∈ ((normEol s.data).splitOn '\n').map jsTrimEndL,
      ∀ h : m ≠ [], ¬ (isJsWs (m.getLast h) = true) := by
    intro m hm hne
    rw [List.mem_map] at hm
    obtain ⟨m0, _, hme⟩ := hm
    subst hme
    exact List.rdropWhile_last_not isJsWs m0 hne
  have hj := noWsNl_intercalate _ hM1 hM2
  have hc := noWsNl_collapseNl _ 0 hj
  have h1 := noWsNl_suff _ _ (List.dropWhile_suffix isJsWs) hc
  exact noWsNl_pref _ _ (List.rdropWhile_prefix isJsWs _) h1

theorem normalizeOutput_nlRunsOK (s : String) :
    nlRunsOK 0 (normalizeOutput s).data = true := by
  show nlRunsOK 0 (jsTrimL (collapseNl 0 (List.intercalate ['\n']
    (((normEol s.data).splitOn '\n').map jsTrimEndL)))) = true
  have hc := collapseNl_runsOK (List.intercalate ['\n']
    (((normEol s.data).splitOn '\n').map jsTrimEndL)) 0
  have h1 := nlRunsOK_suff _ _ (List.dropWhile_suffix isJsWs) hc
  exact nlRunsOK_pref _ _ 0 (List.rdropWhile_prefix isJsWs _) h1

theorem normalizeOutput_trim_fix (s : String) :
    jsTrimL (normalizeOutput s).data = (normalizeOutput s).data :=
  jsTrimL_idem _

theorem normalizeOutput_lastCharOK (s : String) :
    lastCharOK (normalizeOutput s).data = true :=
  lastCharOK_jsTrimL _

theorem normalizeOutput_lines (s : String) :
    ∀ m ∈ (normalizeOutput s).data.splitOn '\n', jsTrimEndL m = m :=
  splitOn_lines_trimmed _ (normalizeOutput_noWsNl s) (normalizeOutput_lastCharOK s)

end OrcaClipper

namespace OrcaClipper

/-! ## C2: the converter output is whitespace-normalized -/

/-- Claim C2: for every parsed input fragment (and URL resolver and base URL),
the string returned by `htmlToMarkdown` — `normalizeOutput` of the raw
conversion — has no run of three or more consecutive newlines (stated both as
the run-length check `nlRunsOK` and as the absence of a `"\n\n\n"` infix),
every `'\n'`-separated line is free of trailing whitespace, and the whole
string carries no leading or trailing whitespace (it is a fixpoint of JS
`trim`). -/
theorem converterOutputNormalized (res : UrlRes) (container : DomNode)
    (baseUrl : String) :
    nlRunsOK 0 (htmlToMarkdown res container baseUrl).data = true ∧
    ¬ (['\n', '\n', '\n'] <:+: (htmlToMarkdown res container baseUrl).data) ∧
    (∀ m ∈ (htmlToMarkdown res container baseUrl).data.splitOn '\n',
      jsTrimEndL m = m) ∧
    jsTrimL (htmlToMarkdown res container baseUrl).data =
      (htmlToMarkdown res container baseUrl).data :=
  ⟨normalizeOutput_nlRunsOK _, noTriple_of_runsOK (normalizeOutput_nlRunsOK _),
    normalizeOutput_lines _, normalizeOutput_trim_fix _⟩

end OrcaClipper

namespace OrcaClipper

/-! ## C10: idempotence of `normalizeOutput` -/

/-- Claim C10: the final normalization pass is idempotent — applying
`normalizeOutput` to an already-normalized string returns it unchanged, so
re-normalizing converter output is a no-op. -/
theorem normalizeOutput_idem (s : String) :
    normalizeOutput (normalizeOutput s) = normalizeOutput s := by
  have h1 : normEol (normalizeOutput s).data = (normalizeOutput s).data :=
    normEol_fix_of_noWsNl _ (normalizeOutput_noWsNl s)
  have h2 : ((normalizeOutput s).data.splitOn '\n').map jsTrimEndL =
      (normalizeOutput s).data.splitOn '\n' := by
    calc ((normalizeOutput s).data.splitOn '\n').map jsTrimEndL
        = ((normalizeOutput s).data.splitOn '\n').map id :=
          List.map_congr_left (fun m hm => normalizeOutput_lines s m hm)
      _ = (normalizeOutput s).data.splitOn '\n' := List.map_id _
  conv_lhs => rw [normalizeOutput]
  rw [h1, h2, List.intercalate_splitOn,
    collapseNl_fix _ (normalizeOutput_nlRunsOK s), normalizeOutput_trim_fix s]

end OrcaClipper
